import Mathlib

/-!
# Verification of the reminder bot (`bot.py`)

A shallow embedding of the reminder bot: the scheduler (`send_reminders`),
the creation-wizard conversation handlers (`get_task`, `get_frequency`,
`get_time`, `get_start_date`, `get_end_date`, `get_one_off_datetime`),
the removal flow (`remove_reminder_confirm`) and the `cancel` fallback.

Modelling conventions:
* Python `datetime.strptime` with the formats `"%Y-%m-%d"`, `"%H:%M"` and
  `"%Y-%m-%d %H:%M"` is embedded by `parseDateChars`, `parseHMChars` and
  `parseDT`, reproducing CPython's lenient directive regexes
  (`%Y` = exactly four digits, `%m` = `1[0-2]|0[1-9]|[1-9]`,
  `%d` = `3[0-1]|[1-2]\d|0[1-9]|[1-9]| [1-9]`, `%H` = `2[0-3]|[0-1]\d|\d`,
  `%M` = `[0-5]\d|\d`) together with `datetime`'s range validation
  (year 1..9999, day bounded by the month length).  ASCII digits only:
  the exotic unicode-digit leniency of CPython's `re` module is not modelled.
* Python string order (`<`, `>`) is code-point lexicographic order,
  embedded by `pyStrLt` on the character lists.
* `str.strip()` is embedded by `pyStrip` (ASCII whitespace).
* `int(...)` is embedded by `pyInt` (optional sign, digits, single
  underscores between digits), unicode digits again not modelled.
* Timestamps are civil values in the single fixed zone (`CivilDT`): a date
  plus minutes since midnight.  Every use of the current time in the source
  goes through `strftime("%Y-%m-%d")` / `strftime("%H:%M")` or a comparison
  against a parsed value with seconds 0, so second precision is irrelevant
  (a `<=` against a parsed minute value with seconds 0 coincides with the
  minute-granularity `<=`).
-/

/-- A proleptic Gregorian calendar date, mirroring Python `datetime.date`. -/
structure Date where
  year : Nat
  month : Nat
  day : Nat
deriving DecidableEq, Repr

/-- Gregorian leap-year rule (as used by Python `datetime`). -/
def isLeap (y : Nat) : Bool :=
  (y % 4 == 0 && y % 100 != 0) || y % 400 == 0

/-- Length of month `m` in year `y`. -/
def daysInMonth (y m : Nat) : Nat :=
  if m = 2 then (if isLeap y then 29 else 28)
  else if m = 4 ∨ m = 6 ∨ m = 9 ∨ m = 11 then 30
  else 31

/-- The range `datetime.date` accepts: year 1..9999, valid month and day. -/
def Date.valid (d : Date) : Bool :=
  decide (1 ≤ d.year ∧ d.year ≤ 9999 ∧ 1 ≤ d.month ∧ d.month ≤ 12 ∧
          1 ≤ d.day ∧ d.day ≤ daysInMonth d.year d.month)

/-- Month/day consistency alone (no year bound); what day-arithmetic preserves. -/
def Date.okb (d : Date) : Bool :=
  decide (1 ≤ d.month ∧ d.month ≤ 12 ∧ 1 ≤ d.day ∧ d.day ≤ daysInMonth d.year d.month)

/-- Calendar (lexicographic) strict order on dates; Python `datetime` order. -/
def dateLtN (a b : Date) : Bool :=
  decide (a.year < b.year ∨ (a.year = b.year ∧
    (a.month < b.month ∨ (a.month = b.month ∧ a.day < b.day))))

/-- Calendar order, non-strict. -/
def dateLeN (a b : Date) : Bool := !(dateLtN b a)

/-- The civil successor day (what adding `timedelta(days=1)` does). -/
def nextDay (d : Date) : Date :=
  if d.day < daysInMonth d.year d.month then ⟨d.year, d.month, d.day + 1⟩
  else if d.month < 12 then ⟨d.year, d.month + 1, 1⟩
  else ⟨d.year + 1, 1, 1⟩

/-- `d + timedelta(days=k)` for a natural `k`. -/
def addDays (d : Date) : Nat → Date
  | 0 => d
  | k + 1 => nextDay (addDays d k)

/-- Days in Hinnant's civil-from-days coordinate (value at 1970-01-01 is
719468); used only to compute the day of week. -/
def Date.dayNumber (dt : Date) : Nat :=
  let y := if dt.month ≤ 2 then dt.year - 1 else dt.year
  let era := y / 400
  let yoe := y % 400
  let mp := if 2 < dt.month then dt.month - 3 else dt.month + 9
  let doy := (153 * mp + 2) / 5 + dt.day - 1
  era * 146097 + yoe * 365 + yoe / 4 - yoe / 100 + doy

/-- Python `date.weekday()`: Monday = 0 .. Sunday = 6. -/
def weekday (d : Date) : Nat := (d.dayNumber + 2) % 7

/-- A civil timestamp in the fixed Singapore zone, at minute precision. -/
structure CivilDT where
  date : Date
  hm : Nat
deriving DecidableEq, Repr

/-! ## Characters, digits and formatting -/

/-- ASCII digit test (the `\d` of the embedded strptime regexes). -/
def isDig (c : Char) : Bool := decide (48 ≤ c.toNat ∧ c.toNat ≤ 57)

/-- Numeric value of an ASCII digit character. -/
def digitVal (c : Char) : Nat := c.toNat - 48

/-- The ASCII digit character for `n % 10`. -/
def dChar (n : Nat) : Char := Char.ofNat (48 + n % 10)

/-- The ten characters of `strftime("%Y-%m-%d")` (zero padded). -/
def toIsoChars (d : Date) : List Char :=
  [dChar (d.year / 1000), dChar (d.year / 100 % 10), dChar (d.year / 10 % 10),
   dChar (d.year % 10), '-', dChar (d.month / 10), dChar (d.month % 10), '-',
   dChar (d.day / 10), dChar (d.day % 10)]

/-- `strftime("%Y-%m-%d")` of a date. -/
def toIso (d : Date) : String := ⟨toIsoChars d⟩

/-- The five characters of `strftime("%H:%M")` for `hm` minutes past midnight. -/
def fmtHMChars (hm : Nat) : List Char :=
  [dChar (hm / 60 / 10), dChar (hm / 60 % 10), ':', dChar (hm % 60 / 10), dChar (hm % 60 % 10)]

/-- `strftime("%H:%M")` of a minute-of-day value. -/
def fmtHM (hm : Nat) : String := ⟨fmtHMChars hm⟩

/-- Python code-point lexicographic order on character lists. -/
def charListLt : List Char → List Char → Bool
  | _, [] => false
  | [], _ :: _ => true
  | a :: as, b :: bs => if a < b then true else if a = b then charListLt as bs else false

/-- Python string `<`. -/
def pyStrLt (a b : String) : Bool := charListLt a.toList b.toList

/-- ASCII whitespace stripped by Python `str.strip()`. -/
def isSpaceC (c : Char) : Bool :=
  c = ' ' || c = '\t' || c = '\n' || c = '\x0d' || c = '\x0b' || c = '\x0c'

/-- Python `str.strip()` (ASCII whitespace). -/
def pyStrip (s : String) : String :=
  ⟨((s.toList.dropWhile isSpaceC).reverse.dropWhile isSpaceC).reverse⟩

/-! ## strptime -/

/-- Split at the first occurrence of `sep`: `cs = a ++ sep :: b`. -/
def breakOn (sep : Char) : List Char → Option (List Char × List Char)
  | [] => none
  | c :: cs =>
    if c = sep then some ([], cs)
    else (breakOn sep cs).map fun p => (c :: p.1, p.2)

/-- Split at the last occurrence of `sep`. -/
def breakLast (sep : Char) (cs : List Char) : Option (List Char × List Char) :=
  (breakOn sep cs.reverse).map fun p => (p.2.reverse, p.1.reverse)

/-- Value of a one- or two-digit group (strptime's `%m`/`%H`/`%M` shapes,
range checks applied by the callers). -/
def val2 : List Char → Option Nat
  | [a] => if isDig a then some (digitVal a) else none
  | [a, b] => if isDig a && isDig b then some (10 * digitVal a + digitVal b) else none
  | _ => none

/-- strptime's `%d` group: one or two digits, or a space-padded single digit
(CPython's `%d` regex contains the alternative `" [1-9]"`). -/
def dayVal : List Char → Option Nat
  | [a, b] =>
    if a = ' ' then (if isDig b && b ≠ '0' then some (digitVal b) else none)
    else val2 [a, b]
  | [a] => val2 [a]
  | _ => none

/-- `datetime.strptime(s, "%Y-%m-%d")`, on the character list: exactly four
digits, dash, lenient month, dash, lenient day, then `datetime`'s range
validation.  Returns the parsed date. -/
def parseDateChars (cs : List Char) : Option Date :=
  match breakOn '-' cs with
  | none => none
  | some (ys, rest) =>
    match breakOn '-' rest with
    | none => none
    | some (ms, ds) =>
      match ys with
      | [a, b, c, d] =>
        if isDig a && isDig b && isDig c && isDig d then
          let y := 1000 * digitVal a + 100 * digitVal b + 10 * digitVal c + digitVal d
          match val2 ms, dayVal ds with
          | some m, some dd =>
            if 1 ≤ y && 1 ≤ m && m ≤ 12 && 1 ≤ dd && dd ≤ daysInMonth y m then
              some ⟨y, m, dd⟩
            else none
          | _, _ => none
        else none
      | _ => none

/-- `datetime.strptime(s, "%Y-%m-%d")` on a string. -/
def parseDate (s : String) : Option Date := parseDateChars s.toList

/-- `datetime.strptime(s, "%H:%M")`, returning minutes past midnight. -/
def parseHMChars (cs : List Char) : Option Nat :=
  match breakOn ':' cs with
  | none => none
  | some (hs, ms) =>
    match val2 hs, val2 ms with
    | some h, some m => if h ≤ 23 && m ≤ 59 then some (60 * h + m) else none
    | _, _ => none

/-- `datetime.strptime(s, "%H:%M")` on a string. -/
def parseHM (s : String) : Option Nat := parseHMChars s.toList

/-- `datetime.strptime(s, "%Y-%m-%d %H:%M")`.  The time group can contain no
space, so a full match exists exactly when the split at the **last** space
yields a date and a time (this also covers the space-padded `%d` form). -/
def parseDT (s : String) : Option (Date × Nat) :=
  match breakLast ' ' s.toList with
  | none => none
  | some (ds, ts) =>
    match parseDateChars ds, parseHMChars ts with
    | some d, some hm => some (d, hm)
    | _, _ => none

/-- Python `int(s)` on an already-stripped string: optional sign, ASCII
digits, single underscores allowed between digits. -/
def pyIntDigits (acc : Nat) : List Char → Option Nat
  | [] => some acc
  | '_' :: c :: cs => if isDig c then pyIntDigits (10 * acc + digitVal c) cs else none
  | c :: cs => if isDig c then pyIntDigits (10 * acc + digitVal c) cs else none

/-- Python `int(s)` (ASCII model). -/
def pyInt (s : String) : Option Int :=
  match s.toList with
  | '-' :: c :: cs =>
    if isDig c then (pyIntDigits (digitVal c) cs).map (fun n => -(n : Int)) else none
  | '+' :: c :: cs =>
    if isDig c then (pyIntDigits (digitVal c) cs).map (fun n => (n : Int)) else none
  | c :: cs =>
    if isDig c then (pyIntDigits (digitVal c) cs).map (fun n => (n : Int)) else none
  | [] => none

/-! ## Data model: reminders, store, wizard session -/

/-- A stored reminder record (`reminders.json` entry).  One-off records hold
the verbatim `datetime` string and the `sent` flag; recurring records hold
the verbatim `time`, `start_date` and optional `end_date` strings. -/
inductive Reminder where
  | oneOff (task : String) (datetime : String) (sent : Bool)
  | recurring (task : String) (frequency : String) (time : String)
      (start_date : String) (end_date : Option String)
deriving DecidableEq, Repr

/-- The task text of a reminder. -/
def taskOf : Reminder → String
  | .oneOff t _ _ => t
  | .recurring t _ _ _ _ => t

/-- The end-date field of a recurring reminder. -/
def endOf : Reminder → Option String
  | .oneOff _ _ _ => none
  | .recurring _ _ _ _ e => e

/-- The global `reminders` mapping: user id → ordered reminder list
(dict insertion order). -/
abbrev Store := List (String × List Reminder)

/-- `reminders[uid].append(r)` with the `if uid not in reminders` guard:
append to an existing entry, or add a new entry at the end. -/
def storeAppend (uid : String) (r : Reminder) : Store → Store
  | [] => [(uid, [r])]
  | (u, rs) :: t => if u = uid then (u, rs ++ [r]) :: t else (u, rs) :: storeAppend uid r t

/-- `context.user_data` of the add-reminder conversation. -/
structure SessionData where
  task : Option String := none
  frequency : Option String := none
  time : Option String := none
  start_date : Option String := none
deriving DecidableEq, Repr

/-- The empty session (`user_data` after `clear()`). -/
def emptySession : SessionData := {}

/-- The add-reminder conversation states (`TASK` .. `ONE_OFF_DATETIME`). -/
inductive ConvState where
  | TASK | FREQUENCY | TIME | START_DATE | END_DATE | ONE_OFF_DATETIME
deriving DecidableEq, Repr

/-- Result of delivering one message to the add-reminder conversation:
the next state (`none` = `ConversationHandler.END`), the session data
afterwards (`emptySession` when `user_data.clear()` ran), the store, whether
`save_reminders` was called, and the reminder committed by this message. -/
structure StepOut where
  state : Option ConvState
  data : SessionData
  store : Store
  saved : Bool
  committed : Option Reminder
deriving DecidableEq, Repr

/-- Re-prompt: stay in `c`, session and store untouched. -/
def stay (c : ConvState) (d : SessionData) (store : Store) : StepOut :=
  ⟨some c, d, store, false, none⟩

/-! ## The wizard handlers (lines 78-361 of `bot.py`) -/

/-- `get_task`: store the raw message text (no strip, no validation beyond
the `filters.TEXT` gate applied by the dispatcher), advance to FREQUENCY. -/
def get_task (text : String) (d : SessionData) (store : Store) : StepOut :=
  ⟨some .FREQUENCY, { d with task := some text }, store, false, none⟩

/-- `get_frequency`: case-sensitive match against the fixed vocabulary. -/
def get_frequency (text : String) (d : SessionData) (store : Store) : StepOut :=
  if pyStrip text = "Daily" || pyStrip text = "Weekly" || pyStrip text = "Monthly" ||
      pyStrip text = "One-off" then
    if pyStrip text = "One-off" then
      ⟨some .ONE_OFF_DATETIME, { d with frequency := some (pyStrip text) }, store, false, none⟩
    else ⟨some .TIME, { d with frequency := some (pyStrip text) }, store, false, none⟩
  else stay .FREQUENCY d store

/-- `get_time`: validate with `strptime("%H:%M")`, store the *stripped input
string verbatim* (not normalised), advance to START_DATE. -/
def get_time (text : String) (d : SessionData) (store : Store) : StepOut :=
  match parseHM (pyStrip text) with
  | some _ => ⟨some .START_DATE, { d with time := some (pyStrip text) }, store, false, none⟩
  | none => stay .TIME d store

/-- `get_start_date`: `Today`/`Tomorrow` resolve against the current fixed-zone
date (zero padded); `Custom Date` re-prompts; a custom date is validated with
`strptime("%Y-%m-%d")` and stored verbatim. -/
def get_start_date (now : CivilDT) (text : String) (d : SessionData) (store : Store) : StepOut :=
  if pyStrip text = "Today" then
    ⟨some .END_DATE, { d with start_date := some (toIso now.date) }, store, false, none⟩
  else if pyStrip text = "Tomorrow" then
    ⟨some .END_DATE, { d with start_date := some (toIso (addDays now.date 1)) }, store,
      false, none⟩
  else if pyStrip text = "Custom Date" then stay .START_DATE d store
  else
    match parseDate (pyStrip text) with
    | some _ =>
      ⟨some .END_DATE, { d with start_date := some (pyStrip text) }, store, false, none⟩
    | none => stay .START_DATE d store

/-- Commit a recurring reminder: build the record from the session fields,
append, persist, clear the session, end.  A missing field would raise
`KeyError` in the source (uncaught), leaving the conversation state
unchanged; within runs of the wizard all fields are present. -/
def commitRecurring (uid : String) (d : SessionData) (ed : Option String) (store : Store) :
    StepOut :=
  match d.task, d.frequency, d.time, d.start_date with
  | some tk, some f, some tm, some sd =>
    let r := Reminder.recurring tk f tm sd ed
    ⟨none, emptySession, storeAppend uid r store, true, some r⟩
  | _, _, _, _ => stay .END_DATE d store

/-- The end-date shortcut table (`timedelta(weeks=1)` = 7 days, then fixed
day offsets 30/90/180/365). -/
def shortcutOffset (s : String) : Option Nat :=
  if s = "1 Week" then some 7
  else if s = "1 Month" then some 30
  else if s = "3 Months" then some 90
  else if s = "6 Months" then some 180
  else if s = "1 Year" then some 365
  else none

/-- `get_end_date`: `Never` commits with no end date; a shortcut commits with
`start_date + offset` days formatted zero-padded (a result past year 9999
raises `OverflowError` in the source — uncaught, state unchanged); a custom
date must parse and be strictly after the parsed start date and is stored
verbatim; otherwise re-prompt. -/
def get_end_date (uid : String) (text : String) (d : SessionData) (store : Store) : StepOut :=
  if pyStrip text = "Never" then commitRecurring uid d none store
  else if pyStrip text = "Custom Date" then stay .END_DATE d store
  else
    match shortcutOffset (pyStrip text) with
    | some off =>
      match parseDate (d.start_date.getD "") with
      | none => stay .END_DATE d store
      | some S =>
        if (addDays S off).year ≤ 9999 then
          commitRecurring uid d (some (toIso (addDays S off))) store
        else stay .END_DATE d store
    | none =>
      match parseDate (pyStrip text) with
      | none => stay .END_DATE d store
      | some E =>
        match parseDate (d.start_date.getD "") with
        | none => stay .END_DATE d store
        | some S =>
          if dateLeN E S then stay .END_DATE d store
          else commitRecurring uid d (some (pyStrip text)) store

/-- `get_one_off_datetime`: validate `"%Y-%m-%d %H:%M"`, require strictly
after the current fixed-zone time (the parsed value has seconds 0, so the
source's `<=` against the second-precision clock equals the minute-precision
`<=`), then commit the verbatim string with `sent = False`. -/
def get_one_off_datetime (uid : String) (now : CivilDT) (text : String) (d : SessionData)
    (store : Store) : StepOut :=
  match parseDT (pyStrip text) with
  | none => stay .ONE_OFF_DATETIME d store
  | some (dt, hm) =>
    if dateLtN dt now.date || (dt == now.date && hm ≤ now.hm) then
      stay .ONE_OFF_DATETIME d store
    else
      match d.task with
      | some t =>
        ⟨none, emptySession,
          storeAppend uid (Reminder.oneOff t (pyStrip text) false) store, true,
          some (Reminder.oneOff t (pyStrip text) false)⟩
      | none => stay .ONE_OFF_DATETIME d store

/-- `/cancel` (the conversation fallback): `user_data.clear()`, end, store
untouched, nothing persisted. -/
def cancel (store : Store) : StepOut := ⟨none, emptySession, store, false, none⟩

/-- Does the text carry a bot command (excluded from every state handler by
`~filters.COMMAND`)? -/
def isCommandText (s : String) : Bool :=
  match s.toList with
  | c :: _ => c = '/'
  | [] => false

/-- One inbound message in the add-reminder conversation: the `/cancel`
fallback fires from every state; empty text fails `filters.TEXT` and other
commands fail `~filters.COMMAND`, so no handler runs and the state is kept;
otherwise dispatch on the conversation state. -/
def addStep (uid : String) (now : CivilDT) (st : ConvState × SessionData) (text : String)
    (store : Store) : StepOut :=
  if text = "/cancel" then cancel store
  else if text = "" || isCommandText text then ⟨some st.1, st.2, store, false, none⟩
  else
    match st.1 with
    | .TASK => get_task text st.2 store
    | .FREQUENCY => get_frequency text st.2 store
    | .TIME => get_time text st.2 store
    | .START_DATE => get_start_date now text st.2 store
    | .END_DATE => get_end_date uid text st.2 store
    | .ONE_OFF_DATETIME => get_one_off_datetime uid now text st.2 store

/-- Run one add-reminder conversation from a state over a list of
(message, arrival time) pairs, collecting the committed reminders. -/
def runAdd (uid : String) :
    Option (ConvState × SessionData) → List (String × CivilDT) → Store → Store × List Reminder
  | _, [], store => (store, [])
  | none, _ :: _, store => (store, [])
  | some st, (text, now) :: rest, store =>
    match (addStep uid now st text store).state with
    | some s2 =>
      ((runAdd uid (some (s2, (addStep uid now st text store).data)) rest
          (addStep uid now st text store).store).1,
        (addStep uid now st text store).committed.toList ++
          (runAdd uid (some (s2, (addStep uid now st text store).data)) rest
            (addStep uid now st text store).store).2)
    | none =>
      ((addStep uid now st text store).store,
        (addStep uid now st text store).committed.toList)

/-! ## The removal flow (lines 433-467) -/

/-- Result of one message in the removal conversation, acting on the user's
reminder list: ended?, the list afterwards, whether `save_reminders` ran. -/
structure RemOut where
  ended : Bool
  lst : List Reminder
  saved : Bool
deriving DecidableEq, Repr

/-- `remove_reminder_confirm`: `int(text.strip())`; an in-range 1-based index
pops that entry and persists; `ValueError` or an out-of-range number
re-prompts with the list unchanged. -/
def remove_reminder_confirm (lst : List Reminder) (text : String) : RemOut :=
  match pyInt (pyStrip text) with
  | none => ⟨false, lst, false⟩
  | some k =>
    if 1 ≤ k ∧ k ≤ (lst.length : Int) then ⟨true, lst.eraseIdx (k.toNat - 1), true⟩
    else ⟨false, lst, false⟩

/-- One inbound message in the removal conversation at store level, with the
`/cancel` fallback: (store afterwards, saved?, ended?). -/
def removeStep (uid : String) (text : String) (store : Store) : Store × Bool × Bool :=
  if text = "/cancel" then (store, false, true)
  else if text = "" || isCommandText text then (store, false, false)
  else
    let lst := (store.lookup uid).getD []
    let o := remove_reminder_confirm lst text
    if o.ended then (store.map (fun p => if p.1 = uid then (p.1, o.lst) else p), o.saved, true)
    else (store, false, false)

/-! ## The scheduler (`send_reminders`, lines 485-542) -/

/-- Is the reminder due at `now`?  One-off: `sent` unset, stored datetime
parsed and re-formatted, compared as strings against the formatted current
date and time (so both sides are zero padded).  Recurring: reject when the
current date string is lexicographically below `start_date` or above a set
`end_date` (Python string `<`/`>` on the *verbatim stored strings*); then the
*stored* time string must equal the formatted current time; then the
frequency branch.  An unparseable stored one-off datetime raises in the
source and is never produced by the wizard; here it yields `false` (the
raising path is modelled separately by `processReminderE`). -/
def evalDue (now : CivilDT) : Reminder → Bool
  | .oneOff _ dtStr sent =>
    if sent then false
    else
      match parseDT dtStr with
      | none => false
      | some (d, hm) => toIso now.date == toIso d && fmtHM now.hm == fmtHM hm
  | .recurring _ f tm sd ed =>
    if pyStrLt (toIso now.date) sd then false
    else if (match ed with | some e => pyStrLt e (toIso now.date) | none => false) then false
    else if tm == fmtHM now.hm then
      if f == "Daily" then true
      else if f == "Weekly" && weekday now.date == 0 then true
      else if f == "Monthly" && now.date.day == 1 then true
      else false
    else false

/-- The mutation the scan applies to a reminder: a due one-off gets
`sent = True`; everything else is untouched. -/
def stepReminder (now : CivilDT) (r : Reminder) : Reminder :=
  if evalDue now r then
    match r with
    | .oneOff t dt _ => .oneOff t dt true
    | .recurring t f tm sd ed => .recurring t f tm sd ed
  else r

/-- Observable events of the scan, in program order. -/
inductive ScanEvent where
  | saved
  | send (uid : String) (task : String) (ok : Bool)
deriving DecidableEq, Repr

/-- Process one reminder of user `uid`: when due, a one-off is marked sent
and persisted *before* the guarded send; the send outcome `ok` (success, or
an exception caught by the `try/except`) never affects the state. -/
def processReminder (now : CivilDT) (uid : String) (ok : Bool) (r : Reminder) :
    Reminder × List ScanEvent :=
  if evalDue now r then
    match r with
    | .oneOff t dt _ => (.oneOff t dt true, [.saved, .send uid t ok])
    | .recurring t f tm sd ed => (.recurring t f tm sd ed, [.send uid t ok])
  else (r, [])

/-- Scan one user's reminder list; `ok i` is the outcome of the send
attempted for the reminder at index `i`. -/
def scanList (now : CivilDT) (uid : String) (ok : Nat → Bool) (i : Nat) :
    List Reminder → List Reminder × List ScanEvent
  | [] => ([], [])
  | r :: rs =>
    let p := processReminder now uid (ok i) r
    let q := scanList now uid ok (i + 1) rs
    (p.1 :: q.1, p.2 ++ q.2)

/-- `send_reminders`: one pass over every reminder of every user.  `okf` is
the notifier oracle (which send attempts succeed). -/
def send_reminders (now : CivilDT) (okf : String → Nat → Bool) : Store → Store × List ScanEvent
  | [] => ([], [])
  | (uid, rs) :: t =>
    let p := scanList now uid (okf uid) 0 rs
    let q := send_reminders now okf t
    ((uid, p.1) :: q.1, p.2 ++ q.2)

/-- The send attempts of an event trace, outcomes erased. -/
def attempts (es : List ScanEvent) : List (String × String) :=
  es.filterMap fun e => match e with | .send u t _ => some (u, t) | .saved => none

/-- A reminder whose scan-time parse cannot raise: a one-off's stored
datetime parses (recurring reminders are only compared as strings). -/
def remWF (r : Reminder) : Bool :=
  match r with
  | .oneOff _ dt _ => (parseDT dt).isSome
  | .recurring _ _ _ _ _ => true

/-- Well-formed store: every stored one-off datetime parses (all stores the
program itself writes are of this shape; anything else would raise out of
the scan in the source). -/
def storeWF (store : Store) : Bool :=
  store.all fun p => p.2.all remWF

/-- Fires of a single reminder across a sequence of scans, each scan applying
the `sent` mutation before the next. -/
def countFires (r : Reminder) : List CivilDT → Nat
  | [] => 0
  | t :: ts => (if evalDue t r then 1 else 0) + countFires (stepReminder t r) ts

/-- Uncaught exceptions that can escape the scan loop in the source:
`parseErr` is the `ValueError` from `strptime` on an unparseable stored
one-off datetime (line 503), `saveErr` the `OSError` from `save_reminders`
while persisting a due one-off's sent flag (line 512).  Neither sits inside
the `try/except`, which guards only the send (lines 538-542). -/
inductive ScanExc where
  | parseErr
  | saveErr
deriving DecidableEq, Repr

/-- Exception-aware processing of one reminder: `sv` is the outcome of the
`save_reminders` call (made only for a due one-off), `ok` of the guarded
send.  A one-off with `sent` unset always parses its stored datetime first,
raising on failure even when not due; when due, the in-memory sent flip and
the save run before the send, and a save failure raises (no `saved` event:
nothing reached the disk, and the scan never gets to the send).  The
recurring branch only compares strings and cannot raise. -/
def processReminderE (now : CivilDT) (uid : String) (sv ok : Bool) :
    Reminder → Except ScanExc (Reminder × List ScanEvent)
  | .oneOff t dt sent =>
    if sent then .ok (.oneOff t dt sent, [])
    else
      match parseDT dt with
      | none => .error .parseErr
      | some (d, hm) =>
        if toIso now.date == toIso d && fmtHM now.hm == fmtHM hm then
          if sv then .ok (.oneOff t dt true, [.saved, .send uid t ok])
          else .error .saveErr
        else .ok (.oneOff t dt sent, [])
  | .recurring t f tm sd ed =>
    .ok (.recurring t f tm sd ed,
      if evalDue now (.recurring t f tm sd ed) then [.send uid t ok] else [])

/-- Exception-aware scan of one user's list: an exception aborts the scan,
keeping the events of the reminders already processed; the rest of the list
is never reached. -/
def scanListE (now : CivilDT) (uid : String) (sv ok : Nat → Bool) (i : Nat) :
    List Reminder → Except (ScanExc × List ScanEvent) (List Reminder × List ScanEvent)
  | [] => .ok ([], [])
  | r :: rs =>
    match processReminderE now uid (sv i) (ok i) r with
    | .error e => .error (e, [])
    | .ok p =>
      match scanListE now uid sv ok (i + 1) rs with
      | .error q => .error (q.1, p.2 ++ q.2)
      | .ok q => .ok (p.1 :: q.1, p.2 ++ q.2)

/-- Exception-aware `send_reminders`: `svf` and `okf` are the save and send
oracles.  An uncaught exception from any user's list propagates, skipping
every remaining reminder of every remaining user; on normal return the
result is the completed store and event trace. -/
def send_remindersE (now : CivilDT) (svf okf : String → Nat → Bool) :
    Store → Except (ScanExc × List ScanEvent) (Store × List ScanEvent)
  | [] => .ok ([], [])
  | (uid, rs) :: t =>
    match scanListE now uid (svf uid) (okf uid) 0 rs with
    | .error q => .error q
    | .ok p =>
      match send_remindersE now svf okf t with
      | .error q => .error (q.1, p.2 ++ q.2)
      | .ok q => .ok ((uid, p.1) :: q.1, p.2 ++ q.2)

/-! ## Spec-side predicates (from the wording of the specification) -/

/-- The specification's reading of a valid `HH:MM` string: exactly five
characters `HH:MM`, two-digit zero-padded hour 00-23 and minute 00-59
(its accepted examples are `09:00`, `14:30`; rejected: `25:00`, `9:60`). -/
def isValidHHMM (s : String) : Bool :=
  match s.toList with
  | [h1, h2, c, m1, m2] =>
    c = ':' && isDig h1 && isDig h2 && isDig m1 && isDig m2 &&
    10 * digitVal h1 + digitVal h2 ≤ 23 && 10 * digitVal m1 + digitVal m2 ≤ 59
  | _ => false

/-- The claim's reading of the recurring due-check: the *calendar* date of
`now` lies in the inclusive range of the *parsed* stored dates, the current
minute-of-day equals the *parsed* stored time, and the frequency branch
holds. -/
def specRecurringDue (r : Reminder) (now : CivilDT) : Bool :=
  match r with
  | .oneOff _ _ _ => false
  | .recurring _ f tm sd ed =>
    match parseDate sd, parseHM tm with
    | some S, some τ =>
      !(dateLtN now.date S) &&
      (match ed with
       | none => true
       | some e => match parseDate e with
         | some E => !(dateLtN E now.date)
         | none => false) &&
      (now.hm == τ) &&
      (if f = "Daily" then true
       else if f = "Weekly" then weekday now.date == 0
       else if f = "Monthly" then now.date.day == 1
       else false)
    | _, _ => false

/-! ## Digit and character lemmas -/

theorem dChar_lt_bnd : ∀ a, a < 10 → ∀ b, b < 10 → ((dChar a < dChar b) ↔ a < b) := by decide

theorem dChar_eq_bnd : ∀ a, a < 10 → ∀ b, b < 10 → ((dChar a = dChar b) ↔ a = b) := by decide

theorem dChar_mod (n : Nat) : dChar (n % 10) = dChar n := by
  unfold dChar
  congr 1
  omega

theorem dChar_lt_iff (a b : Nat) : (dChar a < dChar b) ↔ a % 10 < b % 10 := by
  rw [← dChar_mod a, ← dChar_mod b]
  exact dChar_lt_bnd (a % 10) (by omega) (b % 10) (by omega)

theorem dChar_eq_iff (a b : Nat) : (dChar a = dChar b) ↔ a % 10 = b % 10 := by
  rw [← dChar_mod a, ← dChar_mod b]
  exact dChar_eq_bnd (a % 10) (by omega) (b % 10) (by omega)

theorem dChar_ne_dash (n : Nat) : ¬(dChar n = '-') := by
  have h : ∀ m, m < 10 → ¬(dChar m = '-') := by decide
  rw [← dChar_mod n]
  exact h (n % 10) (by omega)

theorem dChar_ne_space (n : Nat) : ¬(dChar n = ' ') := by
  have h : ∀ m, m < 10 → ¬(dChar m = ' ') := by decide
  rw [← dChar_mod n]
  exact h (n % 10) (by omega)

theorem dChar_ne_colon (n : Nat) : ¬(dChar n = ':') := by
  have h : ∀ m, m < 10 → ¬(dChar m = ':') := by decide
  rw [← dChar_mod n]
  exact h (n % 10) (by omega)

theorem isDig_dChar (n : Nat) : isDig (dChar n) = true := by
  have h : ∀ m, m < 10 → isDig (dChar m) = true := by decide
  rw [← dChar_mod n]
  exact h (n % 10) (by omega)

theorem digitVal_dChar (n : Nat) : digitVal (dChar n) = n % 10 := by
  have h : ∀ m, m < 10 → digitVal (dChar m) = m := by decide
  rw [← dChar_mod n]
  rw [h (n % 10) (by omega)]

theorem isDig_le (c : Char) (h : isDig c = true) : digitVal c ≤ 9 := by
  unfold isDig at h
  unfold digitVal
  simp only [decide_eq_true_eq] at h
  omega

theorem isDig_ne_colon (c : Char) (h : isDig c = true) : ¬(c = ':') := by
  intro e
  subst e
  exact absurd h (by decide)

theorem charListLt_cons (a b : Char) (as bs : List Char) :
    charListLt (a :: as) (b :: bs) = true ↔ (a < b ∨ (a = b ∧ charListLt as bs = true)) := by
  simp only [charListLt]
  split_ifs with h1 h2 <;> simp_all

theorem daysInMonth_le (y m : Nat) : daysInMonth y m ≤ 31 := by
  unfold daysInMonth
  split_ifs <;> omega

theorem daysInMonth_ge (y m : Nat) : 28 ≤ daysInMonth y m := by
  unfold daysInMonth
  split_ifs <;> omega


/-- Two-digit groups compare lexicographically as numbers (with a tail). -/
theorem dig2_chain (a b : Nat) (T : Prop) (ha : a ≤ 99) (hb : b ≤ 99) :
    (a / 10 % 10 < b / 10 % 10 ∨
      (a / 10 % 10 = b / 10 % 10 ∧ (a % 10 < b % 10 ∨ (a % 10 = b % 10 ∧ T))))
      ↔ (a < b ∨ (a = b ∧ T)) := by
  constructor
  · rintro (h | ⟨e1, h | ⟨e2, t⟩⟩)
    · exact Or.inl (by omega)
    · exact Or.inl (by omega)
    · exact Or.inr ⟨by omega, t⟩
  · rintro (h | ⟨e, t⟩)
    · have h2 : a / 10 % 10 < b / 10 % 10 ∨ (a / 10 % 10 = b / 10 % 10 ∧ a % 10 < b % 10) := by
        omega
      rcases h2 with h2 | ⟨e2, h3⟩
      · exact Or.inl h2
      · exact Or.inr ⟨e2, Or.inl h3⟩
    · subst e
      exact Or.inr ⟨rfl, Or.inr ⟨rfl, t⟩⟩

/-- Two-digit groups compare lexicographically as numbers (strict form). -/
theorem dig2_strict (a b : Nat) (ha : a ≤ 99) (hb : b ≤ 99) :
    (a / 10 % 10 < b / 10 % 10 ∨ (a / 10 % 10 = b / 10 % 10 ∧ a % 10 < b % 10)) ↔ a < b := by
  omega

/-- Hundreds/remainder split comparison (with a tail). -/
theorem digHL_chain (a b : Nat) (T : Prop) :
    (a / 100 < b / 100 ∨
      (a / 100 = b / 100 ∧ (a % 100 < b % 100 ∨ (a % 100 = b % 100 ∧ T))))
      ↔ (a < b ∨ (a = b ∧ T)) := by
  constructor
  · rintro (h | ⟨e1, h | ⟨e2, t⟩⟩)
    · exact Or.inl (by omega)
    · exact Or.inl (by omega)
    · exact Or.inr ⟨by omega, t⟩
  · rintro (h | ⟨e, t⟩)
    · have h2 : a / 100 < b / 100 ∨ (a / 100 = b / 100 ∧ a % 100 < b % 100) := by omega
      rcases h2 with h2 | ⟨e2, h3⟩
      · exact Or.inl h2
      · exact Or.inr ⟨e2, Or.inl h3⟩
    · subst e
      exact Or.inr ⟨rfl, Or.inr ⟨rfl, t⟩⟩

/-- Four-digit groups compare lexicographically as numbers (with a tail). -/
theorem dig4_chain (a b : Nat) (T : Prop) (ha : a ≤ 9999) (hb : b ≤ 9999) :
    (a / 1000 % 10 < b / 1000 % 10 ∨
      (a / 1000 % 10 = b / 1000 % 10 ∧
        (a / 100 % 10 < b / 100 % 10 ∨
          (a / 100 % 10 = b / 100 % 10 ∧
            (a / 10 % 10 < b / 10 % 10 ∨
              (a / 10 % 10 = b / 10 % 10 ∧ (a % 10 < b % 10 ∨ (a % 10 = b % 10 ∧ T))))))))
      ↔ (a < b ∨ (a = b ∧ T)) := by
  rw [show a / 1000 % 10 = a / 100 / 10 % 10 by omega,
      show b / 1000 % 10 = b / 100 / 10 % 10 by omega,
      show a / 10 % 10 = a % 100 / 10 % 10 by omega,
      show b / 10 % 10 = b % 100 / 10 % 10 by omega,
      show a % 10 = a % 100 % 10 by omega,
      show b % 10 = b % 100 % 10 by omega]
  rw [dig2_chain (a % 100) (b % 100) T (by omega) (by omega)]
  rw [dig2_chain (a / 100) (b / 100) _ (by omega) (by omega)]
  exact digHL_chain a b T

/-- Zero-padded ISO date strings compare under Python string `<` exactly as
the underlying calendar dates. -/
theorem toIso_lt_iff (D E : Date) (hD : D.valid = true) (hE : E.valid = true) :
    (pyStrLt (toIso D) (toIso E) = true) ↔ (dateLtN D E = true) := by
  obtain ⟨y1, m1, d1⟩ := D
  obtain ⟨y2, m2, d2⟩ := E
  simp only [Date.valid, decide_eq_true_eq] at hD hE
  obtain ⟨hy1a, hy1b, hm1a, hm1b, hd1a, hd1c⟩ := hD
  obtain ⟨hy2a, hy2b, hm2a, hm2b, hd2a, hd2c⟩ := hE
  have hd1b : d1 ≤ 31 := le_trans hd1c (daysInMonth_le _ _)
  have hd2b : d2 ≤ 31 := le_trans hd2c (daysInMonth_le _ _)
  clear hd1c hd2c
  have hdash : ¬(('-' : Char) < '-') := by decide
  have hnil : charListLt [] [] = false := rfl
  show charListLt (toIsoChars ⟨y1, m1, d1⟩) (toIsoChars ⟨y2, m2, d2⟩) = true ↔ _
  simp only [toIsoChars]
  rw [charListLt_cons, charListLt_cons, charListLt_cons, charListLt_cons, charListLt_cons,
      charListLt_cons, charListLt_cons, charListLt_cons, charListLt_cons, charListLt_cons]
  have hmm : ∀ x : Nat, x % 10 % 10 = x % 10 := fun x => Nat.mod_mod_of_dvd x (dvd_refl 10)
  simp only [hdash, false_or, eq_self_iff_true, true_and, hnil, Bool.false_eq_true,
    and_false, or_false, dChar_lt_iff, dChar_eq_iff, hmm, dateLtN, decide_eq_true_eq]
  rw [dig2_strict d1 d2 (by omega) (by omega)]
  rw [dig2_chain m1 m2 _ (by omega) (by omega)]
  rw [dig4_chain y1 y2 _ (by omega) (by omega)]

theorem charListLt_irrefl (l : List Char) : charListLt l l = false := by
  induction l with
  | nil => rfl
  | cons a as ih =>
    show (if a < a then true else if a = a then charListLt as as else false) = false
    rw [if_neg (lt_irrefl a), if_pos rfl, ih]

/-- Trichotomy for the calendar order. -/
theorem dateLtN_trichotomy (D E : Date) :
    dateLtN D E = true ∨ D = E ∨ dateLtN E D = true := by
  obtain ⟨y1, m1, d1⟩ := D
  obtain ⟨y2, m2, d2⟩ := E
  simp only [dateLtN, decide_eq_true_eq, Date.mk.injEq]
  omega

/-- Zero-padded ISO date strings are injective images of valid dates. -/
theorem toIso_inj (D E : Date) (hD : D.valid = true) (hE : E.valid = true)
    (h : toIso D = toIso E) : D = E := by
  rcases dateLtN_trichotomy D E with hlt | heq | hgt
  · have := (toIso_lt_iff D E hD hE).mpr hlt
    rw [h, pyStrLt, charListLt_irrefl] at this
    exact absurd this (by simp)
  · exact heq
  · have := (toIso_lt_iff E D hE hD).mpr hgt
    rw [h, pyStrLt, charListLt_irrefl] at this
    exact absurd this (by simp)

/-- Formatted `HH:MM` strings are injective images of minute-of-day values. -/
theorem fmtHM_inj (a b : Nat) (ha : a < 1440) (hb : b < 1440)
    (h : fmtHM a = fmtHM b) : a = b := by
  have h2 : fmtHMChars a = fmtHMChars b := congrArg String.toList h
  simp only [fmtHMChars, List.cons.injEq, and_true, dChar_eq_iff] at h2
  omega

/-! ## Parser lemmas -/

theorem val2_le (cs : List Char) (v : Nat) (h : val2 cs = some v) : v ≤ 99 := by
  unfold val2 at h
  split at h
  · rename_i a
    split at h
    · rename_i hd
      simp only [Option.some.injEq] at h
      have := isDig_le a hd
      omega
    · exact absurd h (by simp)
  · rename_i a b
    split at h
    · rename_i hd
      rw [Bool.and_eq_true] at hd
      have h1 := isDig_le a hd.1
      have h2 := isDig_le b hd.2
      simp only [Option.some.injEq] at h
      omega
    · exact absurd h (by simp)
  · exact absurd h (by simp)

theorem parseHM_lt (cs : List Char) (v : Nat) (h : parseHMChars cs = some v) : v < 1440 := by
  unfold parseHMChars at h
  split at h
  · exact absurd h (by simp)
  · split at h
    · split at h
      · rename_i hcond
        rw [Bool.and_eq_true, decide_eq_true_eq, decide_eq_true_eq] at hcond
        simp only [Option.some.injEq] at h
        omega
      · exact absurd h (by simp)
    · exact absurd h (by simp)

theorem parseDate_valid (cs : List Char) (D : Date) (h : parseDateChars cs = some D) :
    D.valid = true := by
  unfold parseDateChars at h
  repeat' split at h
  all_goals try exact Option.noConfusion h
  rename_i hdig xa xb m dd hm hd
  simp only [Option.ite_none_right_eq_some, Option.some.injEq] at h
  obtain ⟨hc, hD⟩ := h
  subst hD
  rw [Bool.and_eq_true, Bool.and_eq_true, Bool.and_eq_true] at hdig
  obtain ⟨⟨⟨ha1, ha2⟩, ha3⟩, ha4⟩ := hdig
  have b1 := isDig_le _ ha1
  have b2 := isDig_le _ ha2
  have b3 := isDig_le _ ha3
  have b4 := isDig_le _ ha4
  rw [Bool.and_eq_true, Bool.and_eq_true, Bool.and_eq_true, Bool.and_eq_true,
    decide_eq_true_eq, decide_eq_true_eq, decide_eq_true_eq, decide_eq_true_eq,
    decide_eq_true_eq] at hc
  obtain ⟨⟨⟨⟨hy1, hm1⟩, hm2⟩, hd1⟩, hd2⟩ := hc
  simp only [Date.valid, decide_eq_true_eq]
  exact ⟨hy1, by omega, hm1, hm2, hd1, hd2⟩

theorem parse_toIso (D : Date) (hD : D.valid = true) :
    parseDateChars (toIsoChars D) = some D := by
  obtain ⟨y, m, d⟩ := D
  simp only [Date.valid, decide_eq_true_eq] at hD
  obtain ⟨hy1, hy2, hm1, hm2, hd1, hd2⟩ := hD
  simp only [toIsoChars, parseDateChars, breakOn, dChar_ne_dash, val2, dayVal,
    isDig_dChar, digitVal_dChar, dChar_ne_space, if_false, if_true, Option.map_some,
    Option.map, Bool.and_self, if_pos, and_true, true_and]
  have hd3 : d ≤ 31 := le_trans hd2 (daysInMonth_le _ _)
  have ey : 1000 * (y / 1000 % 10) + 100 * (y / 100 % 10 % 10) + 10 * (y / 10 % 10 % 10) + y % 10 % 10 = y := by omega
  have em : 10 * (m / 10 % 10) + m % 10 % 10 = m := by omega
  have ed : 10 * (d / 10 % 10) + d % 10 % 10 = d := by omega
  rw [ey, em, ed]
  have hcond : (decide (1 ≤ y) && decide (1 ≤ m) && decide (m ≤ 12) && decide (1 ≤ d) &&
      decide (d ≤ daysInMonth y m)) = true := by
    simp only [Bool.and_eq_true, decide_eq_true_eq]
    exact ⟨⟨⟨⟨hy1, hm1⟩, hm2⟩, hd1⟩, hd2⟩
  rw [if_pos hcond]

theorem parseDT_valid (s : String) (d : Date) (hm : Nat) (h : parseDT s = some (d, hm)) :
    d.valid = true ∧ hm < 1440 := by
  unfold parseDT at h
  split at h
  · exact Option.noConfusion h
  · split at h
    · rename_i heq1 heq2
      simp only [Option.some.injEq, Prod.mk.injEq] at h
      obtain ⟨h1, h2⟩ := h
      subst h1
      subst h2
      exact ⟨parseDate_valid _ _ heq1, parseHM_lt _ _ heq2⟩
    · exact Option.noConfusion h

theorem parseDate_some_valid (s : String) (d : Date) (h : parseDate s = some d) :
    d.valid = true := parseDate_valid _ _ h

/-- Every string the specification counts as a valid `HH:MM` time is accepted
by the strptime-based validator. -/
theorem isValidHHMM_parse (s : String) (h : isValidHHMM s = true) :
    (parseHM s).isSome = true := by
  unfold isValidHHMM at h
  unfold parseHM
  split at h
  · rename_i h1 h2 c m1 m2 heq
    rw [Bool.and_eq_true, Bool.and_eq_true, Bool.and_eq_true, Bool.and_eq_true,
      Bool.and_eq_true, Bool.and_eq_true, decide_eq_true_eq, decide_eq_true_eq,
      decide_eq_true_eq] at h
    obtain ⟨⟨⟨⟨⟨⟨hc, hh1⟩, hh2⟩, hm1⟩, hm2⟩, hb1⟩, hb2⟩ := h
    subst hc
    rw [heq]
    have e1 : ¬(h1 = ':') := isDig_ne_colon _ hh1
    have e2 : ¬(h2 = ':') := isDig_ne_colon _ hh2
    have hb : breakOn ':' [h1, h2, ':', m1, m2] = some ([h1, h2], [m1, m2]) := by
      simp [breakOn, e1, e2]
    have hv1 : val2 [h1, h2] = some (10 * digitVal h1 + digitVal h2) := by
      simp [val2, hh1, hh2]
    have hv2 : val2 [m1, m2] = some (10 * digitVal m1 + digitVal m2) := by
      simp [val2, hm1, hm2]
    simp only [parseHMChars, hb, hv1, hv2]
    rw [if_pos]
    · rfl
    · simp only [Bool.and_eq_true, decide_eq_true_eq]
      exact ⟨hb1, hb2⟩
  · exact Bool.noConfusion h

/-! ## Day arithmetic lemmas -/

/-- Linearised day coordinate: strictly monotone along `nextDay` for
in-bounds dates. -/
def dayIndex (d : Date) : Nat := 372 * d.year + 31 * d.month + d.day

theorem nextDay_okb (d : Date) (h : d.okb = true) : (nextDay d).okb = true := by
  obtain ⟨y, m, dd⟩ := d
  simp only [Date.okb, decide_eq_true_eq] at h
  have h28 := daysInMonth_ge y m
  have h28b := daysInMonth_ge y (m + 1)
  have h28c := daysInMonth_ge (y + 1) 1
  simp only [nextDay, Date.okb, decide_eq_true_eq]
  split_ifs <;> simp_all <;> omega

theorem nextDay_year_ge (d : Date) : d.year ≤ (nextDay d).year := by
  obtain ⟨y, m, dd⟩ := d
  simp only [nextDay]
  split_ifs <;> simp <;> omega

theorem dayIndex_lt_nextDay (d : Date) (h : d.okb = true) :
    dayIndex d < dayIndex (nextDay d) := by
  obtain ⟨y, m, dd⟩ := d
  simp only [Date.okb, decide_eq_true_eq] at h
  have h31 := daysInMonth_le y m
  simp only [nextDay, dayIndex]
  split_ifs <;> simp_all <;> omega

theorem addDays_okb (d : Date) (k : Nat) (h : d.okb = true) : (addDays d k).okb = true := by
  induction k with
  | zero => exact h
  | succ n ih => exact nextDay_okb _ ih

theorem addDays_year_ge (d : Date) (k : Nat) : d.year ≤ (addDays d k).year := by
  induction k with
  | zero => exact le_refl _
  | succ n ih => exact le_trans ih (nextDay_year_ge _)

theorem dayIndex_lt_addDays (d : Date) (k : Nat) (h : d.okb = true) (hk : 1 ≤ k) :
    dayIndex d < dayIndex (addDays d k) := by
  induction k with
  | zero => exact absurd hk (by omega)
  | succ n ih =>
    rcases Nat.eq_zero_or_pos n with h0 | hpos
    · subst h0
      exact dayIndex_lt_nextDay d h
    · exact lt_trans (ih hpos) (dayIndex_lt_nextDay _ (addDays_okb d n h))

theorem dateLtN_of_dayIndex (D E : Date) (hD : D.okb = true) (hE : E.okb = true)
    (h : dayIndex D < dayIndex E) : dateLtN D E = true := by
  obtain ⟨y1, m1, d1⟩ := D
  obtain ⟨y2, m2, d2⟩ := E
  simp only [Date.okb, decide_eq_true_eq] at hD hE
  have h31a := daysInMonth_le y1 m1
  have h31b := daysInMonth_le y2 m2
  simp only [dayIndex] at h
  simp only [dateLtN, decide_eq_true_eq]
  omega

/-- The committed end date of a shortcut is strictly after the start date. -/
theorem dateLtN_addDays (S : Date) (k : Nat) (hS : S.okb = true) (hk : 1 ≤ k) :
    dateLtN S (addDays S k) = true :=
  dateLtN_of_dayIndex _ _ hS (addDays_okb S k hS) (dayIndex_lt_addDays S k hS hk)

theorem valid_okb (d : Date) (h : d.valid = true) : d.okb = true := by
  simp only [Date.valid, decide_eq_true_eq] at h
  simp only [Date.okb, decide_eq_true_eq]
  exact ⟨h.2.2.1, h.2.2.2.1, h.2.2.2.2⟩

/-- An `addDays` result whose year stays within `datetime`'s range is valid. -/
theorem addDays_valid (S : Date) (k : Nat) (hS : S.valid = true)
    (hy : (addDays S k).year ≤ 9999) : (addDays S k).valid = true := by
  have hok := addDays_okb S k (valid_okb S hS)
  have hge := addDays_year_ge S k
  simp only [Date.valid, decide_eq_true_eq] at hS ⊢
  simp only [Date.okb, decide_eq_true_eq] at hok
  exact ⟨by omega, hy, hok.1, hok.2.1, hok.2.2.1, hok.2.2.2⟩

/-! ## Claim theorems -/

theorem evalDue_sent_true (now : CivilDT) (t dt : String) :
    evalDue now (Reminder.oneOff t dt true) = false := rfl

theorem stepReminder_not_due (now : CivilDT) (r : Reminder) (h : evalDue now r = false) :
    stepReminder now r = r := by
  simp [stepReminder, h]

theorem countFires_sent (t dt : String) (ts : List CivilDT) :
    countFires (Reminder.oneOff t dt true) ts = 0 := by
  induction ts with
  | nil => rfl
  | cons a as ih =>
    have h0 : evalDue a (Reminder.oneOff t dt true) = false := rfl
    simp [countFires, h0, stepReminder_not_due a _ h0, ih]

/-- C1: a one-off reminder is due exactly when its `sent` flag is false and the
current date and minute-truncated time (fixed zone) equal the stored fire
date-time; across any sequence of repeated evaluations it fires at most once. -/
theorem c1_oneoff_due_exact_and_at_most_once (t dtStr : String) (sent : Bool) (now : CivilDT)
    (d : Date) (hm : Nat) (hparse : parseDT dtStr = some (d, hm))
    (hnv : now.date.valid = true) (hnhm : now.hm < 1440) :
    (evalDue now (Reminder.oneOff t dtStr sent) = true ↔
      (sent = false ∧ now.date = d ∧ now.hm = hm))
    ∧ (∀ ts : List CivilDT, countFires (Reminder.oneOff t dtStr sent) ts ≤ 1) := by
  obtain ⟨hv, hlt⟩ := parseDT_valid dtStr d hm hparse
  constructor
  · cases sent with
    | true =>
      simp only [evalDue_sent_true, Bool.false_eq_true, false_iff]
      rintro ⟨h, -⟩
      exact Bool.noConfusion h
    | false =>
      show (match parseDT dtStr with
        | none => false
        | some (d, hm) => toIso now.date == toIso d && fmtHM now.hm == fmtHM hm) = true ↔ _
      rw [hparse]
      simp only [Bool.and_eq_true, beq_iff_eq, eq_self_iff_true, true_and]
      constructor
      · rintro ⟨h1, h2⟩
        exact ⟨toIso_inj _ _ hnv hv h1, fmtHM_inj _ _ hnhm hlt h2⟩
      · rintro ⟨h1, h2⟩
        rw [h1, h2]
        exact ⟨rfl, rfl⟩
  · intro ts
    cases sent with
    | true =>
      rw [countFires_sent]
      omega
    | false =>
      induction ts with
      | nil => exact Nat.zero_le 1
      | cons a as ih =>
        by_cases hdue : evalDue a (Reminder.oneOff t dtStr false) = true
        · have hstep : stepReminder a (Reminder.oneOff t dtStr false) =
              Reminder.oneOff t dtStr true := by
            simp [stepReminder, hdue]
          simp [countFires, hdue, hstep, countFires_sent]
        · rw [Bool.not_eq_true] at hdue
          simp only [countFires, hdue, Bool.false_eq_true, if_false,
            stepReminder_not_due a _ hdue]
          omega

/-- C2 (amended): for a recurring reminder whose stored fields are the
zero-padded renderings of a time-of-day, a start date and an optional end
date, the scheduler marks it due exactly when the current date is within the
inclusive calendar range, the current minute-of-day equals the stored
time-of-day, and the frequency branch holds (Daily always; Weekly iff
weekday = 0, i.e. Monday, regardless of the start date; Monthly iff
day-of-month = 1).  (The source compares the verbatim stored strings, which
coincides with the calendar conditions exactly for zero-padded fields.) -/
theorem c2_recurring_due_amended (task f : String) (τ : Nat) (S : Date) (endD : Option Date)
    (now : CivilDT) (hτ : τ < 1440) (hS : S.valid = true) (hnd : now.date.valid = true)
    (hnhm : now.hm < 1440) (hE : ∀ E, endD = some E → E.valid = true) :
    evalDue now (Reminder.recurring task f (fmtHM τ) (toIso S) (endD.map toIso)) = true ↔
      (dateLtN now.date S = false ∧
       (∀ E, endD = some E → dateLtN E now.date = false) ∧
       now.hm = τ ∧
       (f = "Daily" ∨ (f = "Weekly" ∧ weekday now.date = 0) ∨
         (f = "Monthly" ∧ now.date.day = 1))) := by
  have h1 := toIso_lt_iff now.date S hnd hS
  have htime : (fmtHM τ == fmtHM now.hm) = true ↔ now.hm = τ := by
    rw [beq_iff_eq]
    constructor
    · intro h
      exact (fmtHM_inj _ _ hτ hnhm h).symm
    · intro h
      rw [h]
  have hfreq : ((if f == "Daily" then true
      else if f == "Weekly" && weekday now.date == 0 then true
      else if f == "Monthly" && now.date.day == 1 then true
      else false) = true) ↔
      (f = "Daily" ∨ (f = "Weekly" ∧ weekday now.date = 0) ∨
        (f = "Monthly" ∧ now.date.day = 1)) := by
    split_ifs with ha hb hc <;>
      simp_all [Bool.and_eq_true, beq_iff_eq]
  cases endD with
  | none =>
    simp only [Option.map_none']
    by_cases hlt : pyStrLt (toIso now.date) (toIso S) = true
    · have := h1.mp hlt
      simp [evalDue, hlt, this]
    · rw [Bool.not_eq_true] at hlt
      have hlt2 : dateLtN now.date S = false := by
        cases hq : dateLtN now.date S with
        | false => rfl
        | true => exact absurd (h1.mpr hq) (by rw [hlt]; simp)
      by_cases ht : (fmtHM τ == fmtHM now.hm) = true
      · have hnm : now.hm = τ := htime.mp ht
        simp only [evalDue, hlt, Bool.false_eq_true, if_false, ht, if_true, hlt2, true_and]
        rw [hfreq]
        simp [hnm]
      · rw [Bool.not_eq_true] at ht
        have ht2 : ¬(now.hm = τ) := fun hh => by
          rw [htime.symm.mp hh] at ht
          exact Bool.noConfusion ht
        simp [evalDue, hlt, ht, ht2]
  | some E =>
    have hEv := hE E rfl
    have h2 := toIso_lt_iff E now.date hEv hnd
    simp only [Option.map_some']
    by_cases hlt : pyStrLt (toIso now.date) (toIso S) = true
    · have := h1.mp hlt
      simp [evalDue, hlt, this]
    · rw [Bool.not_eq_true] at hlt
      have hlt2 : dateLtN now.date S = false := by
        cases hq : dateLtN now.date S with
        | false => rfl
        | true => exact absurd (h1.mpr hq) (by rw [hlt]; simp)
      by_cases hend : pyStrLt (toIso E) (toIso now.date) = true
      · have he2 := h2.mp hend
        simp [evalDue, hlt, hend, he2]
      · rw [Bool.not_eq_true] at hend
        have hend2 : dateLtN E now.date = false := by
          cases hq : dateLtN E now.date with
          | false => rfl
          | true => exact absurd (h2.mpr hq) (by rw [hend]; simp)
        by_cases ht : (fmtHM τ == fmtHM now.hm) = true
        · have hnm : now.hm = τ := htime.mp ht
          have hEeq : (∀ F, (some E : Option Date) = some F → dateLtN F now.date = false) ↔
              dateLtN E now.date = false := by
            constructor
            · intro hh
              exact hh E rfl
            · intro hh F hF
              obtain rfl : E = F := Option.some.inj hF
              exact hh
          simp only [evalDue, hlt, Bool.false_eq_true, if_false, hend, ht, if_true, hlt2,
            true_and]
          rw [hfreq]
          simp [hnm, hEeq, hend2]
        · rw [Bool.not_eq_true] at ht
          have ht2 : ¬(now.hm = τ) := fun hh => by
            rw [htime.symm.mp hh] at ht
            exact Bool.noConfusion ht
          simp [evalDue, hlt, hend, ht, ht2]

/-- C2 counterexample: a wizard-accepted recurring reminder with the
non-padded stored time "9:30" satisfies the claim side (minute-of-day
matches the denoted time, date in range, Daily) at 2026-02-16 09:30, yet
the scheduler does not mark it due, because "9:30" ≠ "09:30" as strings. -/
theorem c2_recurring_due_cex :
    specRecurringDue (Reminder.recurring "t" "Daily" "9:30" "2026-01-01" none)
        ⟨⟨2026, 2, 16⟩, 570⟩ = true
    ∧ evalDue ⟨⟨2026, 2, 16⟩, 570⟩
        (Reminder.recurring "t" "Daily" "9:30" "2026-01-01" none) = false := by
  constructor
  · decide
  · decide



-- C10 dev
/-- C10: the start-date validator accepts non-zero-padded inputs such as
"2026-1-5" and stores them verbatim; the scheduler's range check is a string
comparison that agrees with calendar order on zero-padded dates, but a
Daily reminder stored with start "2026-1-5" is treated as not yet started
on 2026-09-30 at its own time. -/
theorem c10_lenient_date_lexicographic :
    ((parseDate "2026-1-5").isSome = true ∧
      get_start_date ⟨⟨2026, 1, 2⟩, 540⟩ "2026-1-5" emptySession [] =
        ⟨some ConvState.END_DATE, { emptySession with start_date := some "2026-1-5" }, [],
          false, none⟩)
    ∧ (∀ D E : Date, D.valid = true → E.valid = true →
        (pyStrLt (toIso D) (toIso E) = true ↔ dateLtN D E = true))
    ∧ (parseDate "2026-1-5" = some ⟨2026, 1, 5⟩ ∧
       dateLtN ⟨2026, 1, 5⟩ ⟨2026, 9, 30⟩ = true ∧
       evalDue ⟨⟨2026, 9, 30⟩, 540⟩
         (Reminder.recurring "t" "Daily" "09:00" "2026-1-5" none) = false) := by
  refine ⟨⟨by decide, by decide⟩, toIso_lt_iff, by decide, by decide, by decide⟩

-- C4 amended dev
/-- C4 (amended): the time validator accepts exactly the strings accepted by
`strptime("%H:%M")` applied to the stripped input — every zero-padded
`HH:MM` string is accepted and advances the wizard to the start-date state
storing the stripped input verbatim, and every rejected string re-prompts
with the state, session fields and store unchanged.  (The accepted set is a
strict superset of the zero-padded `HH:MM` strings: one- or two-digit hour
up to 23 and minute up to 59.) -/
theorem c4_time_validation_amended (text : String) (d : SessionData) (store : Store) :
    (isValidHHMM (pyStrip text) = true →
      get_time text d store =
        ⟨some ConvState.START_DATE, { d with time := some (pyStrip text) }, store, false, none⟩)
    ∧ ((parseHM (pyStrip text)).isSome = true →
      get_time text d store =
        ⟨some ConvState.START_DATE, { d with time := some (pyStrip text) }, store, false, none⟩)
    ∧ (parseHM (pyStrip text) = none →
      get_time text d store = ⟨some ConvState.TIME, d, store, false, none⟩) := by
  cases hp : parseHM (pyStrip text) with
  | none =>
    refine ⟨fun h => ?_, fun h => ?_, fun _ => by simp [get_time, hp, stay]⟩
    · have h2 := isValidHHMM_parse _ h
      rw [hp] at h2
      simp at h2
    · simp at h
  | some v =>
    refine ⟨fun _ => by simp [get_time, hp], fun _ => by simp [get_time, hp], fun h => ?_⟩
    exact Option.noConfusion h

/-- C4 counterexample: "9:30" is not a `HH:MM` string in the specification's
format (two-digit hour and minute), yet the validator accepts it and
advances, storing it verbatim. -/
theorem c4_time_validation_cex :
    get_time "9:30" ⟨none, none, none, none⟩ [] =
      ⟨some ConvState.START_DATE, ⟨none, none, some "9:30", none⟩, [], false, none⟩
    ∧ isValidHHMM "9:30" = false := by
  exact ⟨by decide, by decide⟩

-- C5 dev
/-- C5: in the removal state, an integer input k with 1 ≤ k ≤ n removes
exactly the k-th reminder (1-based) leaving the rest in their original
relative order (`take (k-1) ++ drop k`), persists, and ends the session;
a non-integer or out-of-range input re-prompts with the list unchanged and
nothing persisted. -/
theorem c5_removal_index (lst : List Reminder) (text : String) :
    (∀ k : Int, pyInt (pyStrip text) = some k → 1 ≤ k → k ≤ (lst.length : Int) →
      remove_reminder_confirm lst text =
        ⟨true, lst.take (k.toNat - 1) ++ lst.drop k.toNat, true⟩)
    ∧ (pyInt (pyStrip text) = none →
      remove_reminder_confirm lst text = ⟨false, lst, false⟩)
    ∧ (∀ k : Int, pyInt (pyStrip text) = some k → (k < 1 ∨ (lst.length : Int) < k) →
      remove_reminder_confirm lst text = ⟨false, lst, false⟩) := by
  refine ⟨?_, ?_, ?_⟩
  · intro k hk h1 h2
    have he : lst.eraseIdx (k.toNat - 1) = lst.take (k.toNat - 1) ++ lst.drop k.toNat := by
      rw [List.eraseIdx_eq_take_drop_succ]
      have : k.toNat - 1 + 1 = k.toNat := by omega
      rw [this]
    simp [remove_reminder_confirm, hk, h1, h2, he]
  · intro hk
    simp [remove_reminder_confirm, hk]
  · intro k hk hrange
    have : ¬(1 ≤ k ∧ k ≤ (lst.length : Int)) := by omega
    simp [remove_reminder_confirm, hk, this]

-- C6 dev
/-- C6: the `/cancel` fallback, from every wizard state and every session,
clears the session, ends the conversation, and leaves the reminder store
exactly as it was (nothing is persisted); likewise in the removal flow. -/
theorem c6_cancel_preserves_store (uid : String) (st : ConvState) (d : SessionData) (store : Store) (now : CivilDT) :
    addStep uid now (st, d) "/cancel" store = ⟨none, emptySession, store, false, none⟩
    ∧ removeStep uid "/cancel" store = (store, false, true) := by
  constructor
  · have h : ("/cancel" = "/cancel") := rfl
    simp [addStep, cancel]
  · rfl

-- C9 dev
/-- C9: when a one-off reminder is due, the scan sets `sent = true` and
persists (the `saved` event) strictly before the send attempt, and the
resulting reminder is never due again at any later evaluation time,
regardless of the send outcome. -/
theorem c9_sent_persisted_before_send (t dt : String) (sent : Bool) (uid : String) (ok : Bool) (now : CivilDT)
    (hdue : evalDue now (Reminder.oneOff t dt sent) = true) :
    processReminder now uid ok (Reminder.oneOff t dt sent) =
      (Reminder.oneOff t dt true, [ScanEvent.saved, ScanEvent.send uid t ok])
    ∧ (∀ later : CivilDT, evalDue later (Reminder.oneOff t dt true) = false) := by
  constructor
  · simp [processReminder, hdue]
  · intro later
    rfl

theorem processReminder_fst (now : CivilDT) (uid : String) (ok : Bool) (r : Reminder) :
    (processReminder now uid ok r).1 = stepReminder now r := by
  by_cases h : evalDue now r = true
  · cases r <;> simp [processReminder, stepReminder, h]
  · rw [Bool.not_eq_true] at h
    simp [processReminder, stepReminder, h]

theorem attempts_processReminder (now : CivilDT) (uid : String) (ok : Bool) (r : Reminder) :
    attempts (processReminder now uid ok r).2 =
      (if evalDue now r then [(uid, taskOf r)] else []) := by
  by_cases h : evalDue now r = true
  · cases r <;> simp [processReminder, attempts, h, taskOf]
  · rw [Bool.not_eq_true] at h
    simp [processReminder, attempts, h]

theorem scanList_fst (now : CivilDT) (uid : String) (ok : Nat → Bool) (i : Nat)
    (rs : List Reminder) :
    (scanList now uid ok i rs).1 = rs.map (stepReminder now) := by
  induction rs generalizing i with
  | nil => rfl
  | cons r rest ih =>
    simp [scanList, processReminder_fst, ih]

theorem attempts_append (a b : List ScanEvent) :
    attempts (a ++ b) = attempts a ++ attempts b := by
  simp [attempts]

theorem attempts_scanList (now : CivilDT) (uid : String) (ok : Nat → Bool) (i : Nat)
    (rs : List Reminder) :
    attempts (scanList now uid ok i rs).2 =
      (rs.filter (evalDue now)).map (fun r => (uid, taskOf r)) := by
  induction rs generalizing i with
  | nil => rfl
  | cons r rest ih =>
    rw [show (scanList now uid ok i (r :: rest)).2 =
      (processReminder now uid (ok i) r).2 ++ (scanList now uid ok (i + 1) rest).2 from rfl]
    rw [attempts_append, attempts_processReminder, ih]
    by_cases h : evalDue now r = true
    · simp [List.filter_cons, h]
    · rw [Bool.not_eq_true] at h
      simp [List.filter_cons, h]

theorem send_reminders_fst (now : CivilDT) (okf : String → Nat → Bool) (store : Store) :
    (send_reminders now okf store).1 =
      store.map (fun p => (p.1, p.2.map (stepReminder now))) := by
  induction store with
  | nil => rfl
  | cons p t ih =>
    simp [send_reminders, scanList_fst, ih]

theorem attempts_send_reminders (now : CivilDT) (okf : String → Nat → Bool) (store : Store) :
    attempts (send_reminders now okf store).2 =
      (store.map (fun p => (p.2.filter (evalDue now)).map (fun r => (p.1, taskOf r)))).flatten := by
  induction store with
  | nil => rfl
  | cons p t ih =>
    rw [show (send_reminders now okf (p :: t)).2 =
      (scanList now p.1 (okf p.1) 0 p.2).2 ++ (send_reminders now okf t).2 from rfl]
    rw [attempts_append, attempts_scanList, ih]
    simp

/-- When the reminder's parse cannot raise and its save succeeds, the
exception-aware step agrees with the total model. -/
theorem processReminderE_ok (now : CivilDT) (uid : String) (ok : Bool) (r : Reminder)
    (h : remWF r = true) :
    processReminderE now uid true ok r = Except.ok (processReminder now uid ok r) := by
  cases r with
  | oneOff t dt sent =>
    cases sent with
    | false =>
      simp only [remWF] at h
      cases hp : parseDT dt with
      | none => rw [hp] at h; simp at h
      | some p =>
        obtain ⟨d, hm⟩ := p
        by_cases hdue : (toIso now.date == toIso d && fmtHM now.hm == fmtHM hm) = true
        · simp [processReminderE, processReminder, evalDue, hp, hdue]
        · simp [processReminderE, processReminder, evalDue, hp, hdue]
    | true => rfl
  | recurring t f tm sd ed =>
    by_cases hdue : evalDue now (Reminder.recurring t f tm sd ed) = true
    · simp [processReminderE, processReminder, hdue]
    · simp [processReminderE, processReminder, hdue]

/-- When every parse succeeds and every save succeeds, the exception-aware
per-user scan completes and agrees with the total model. -/
theorem scanListE_ok (now : CivilDT) (uid : String) (sv ok : Nat → Bool)
    (hsv : ∀ j, sv j = true) (i : Nat) (rs : List Reminder)
    (h : rs.all remWF = true) :
    scanListE now uid sv ok i rs = Except.ok (scanList now uid ok i rs) := by
  induction rs generalizing i with
  | nil => rfl
  | cons r rest ih =>
    rw [List.all_cons, Bool.and_eq_true] at h
    simp only [scanListE]
    rw [hsv i, processReminderE_ok now uid (ok i) r h.1, ih (i + 1) h.2]
    rfl

/-- Over a well-formed store with every save succeeding, the exception-aware
scan raises nothing and computes exactly the total model's result. -/
theorem send_remindersE_ok (now : CivilDT) (svf okf : String → Nat → Bool)
    (hsv : ∀ u j, svf u j = true) (store : Store) (hwf : storeWF store = true) :
    send_remindersE now svf okf store = Except.ok (send_reminders now okf store) := by
  induction store with
  | nil => rfl
  | cons p t ih =>
    obtain ⟨uid, rs⟩ := p
    simp only [storeWF, List.all_cons, Bool.and_eq_true] at hwf
    simp only [send_remindersE]
    rw [scanListE_ok now uid (svf uid) (okf uid) (hsv uid) 0 rs hwf.1, ih hwf.2]
    rfl

/-- C7 (amended): only the notifier send is inside the `try/except`, so only
send failures are isolated.  Over a well-formed store (every stored one-off
datetime parses, as in every store the program writes) with every
`save_reminders` call succeeding, the scan raises nothing and completes:
its resulting store and the sequence of attempted sends are identical
whatever sends fail (every user and every reminder is processed, per-user
list shapes are preserved), and a due one-off whose send attempt failed is
never retried (it is no longer due).  A failing save or an unparseable
stored datetime instead raises out of the scan and aborts it (see the
counterexample for this claim). -/
theorem c7_scan_failure_amended (now : CivilDT) (store : Store)
    (svf ok1 ok2 : String → Nat → Bool)
    (hwf : storeWF store = true) (hsv : ∀ u j, svf u j = true) :
    (send_remindersE now svf ok1 store = Except.ok (send_reminders now ok1 store))
    ∧ ((send_reminders now ok1 store).1 = (send_reminders now ok2 store).1)
    ∧ (attempts (send_reminders now ok1 store).2 = attempts (send_reminders now ok2 store).2)
    ∧ ((send_reminders now ok1 store).1.map (fun p => (p.1, p.2.length)) =
        store.map (fun p => (p.1, p.2.length)))
    ∧ (∀ t dt later, evalDue now (Reminder.oneOff t dt false) = true →
        evalDue later (stepReminder now (Reminder.oneOff t dt false)) = false) := by
  refine ⟨send_remindersE_ok now svf ok1 hsv store hwf, ?_, ?_, ?_, ?_⟩
  · rw [send_reminders_fst, send_reminders_fst]
  · rw [attempts_send_reminders, attempts_send_reminders]
  · rw [send_reminders_fst]
    simp [List.map_map, Function.comp]
  · intro t dt later h
    have hs : stepReminder now (Reminder.oneOff t dt false) = Reminder.oneOff t dt true := by
      simp [stepReminder, h]
    rw [hs]
    rfl

theorem shortcutOffset_pos (s : String) (off : Nat) (h : shortcutOffset s = some off) :
    1 ≤ off := by
  unfold shortcutOffset at h
  split_ifs at h <;> simp only [Option.some.injEq] at h <;> omega

/-- C3 (amended): in AwaitingEndDate, `Never` commits a recurring reminder
with no end date; each shortcut commits `start_date + {7,30,90,180,365}`
days (zero-padded), provided the result stays within year 9999 (otherwise
the date addition overflows in the source and the state does not advance);
a custom date commits verbatim exactly when it parses and is strictly after
the parsed start date, and any violation re-prompts leaving session and
store untouched; every reminder committed from this state has an end date
that is `None` or parses to a date strictly after the start date. -/
theorem c3_end_date_amended (uid : String) (d : SessionData) (store : Store) (tk f tm sds : String)
    (S : Date) (htk : d.task = some tk) (hf : d.frequency = some f) (htm : d.time = some tm)
    (hsd : d.start_date = some sds) (hS : parseDate sds = some S) :
    (get_end_date uid "Never" d store =
      ⟨none, emptySession, storeAppend uid (Reminder.recurring tk f tm sds none) store, true,
        some (Reminder.recurring tk f tm sds none)⟩)
    ∧ (∀ name off, (name, off) ∈ [("1 Week", 7), ("1 Month", 30), ("3 Months", 90),
          ("6 Months", 180), ("1 Year", 365)] → (addDays S off).year ≤ 9999 →
        get_end_date uid name d store =
          ⟨none, emptySession,
            storeAppend uid (Reminder.recurring tk f tm sds (some (toIso (addDays S off)))) store,
            true, some (Reminder.recurring tk f tm sds (some (toIso (addDays S off))))⟩
        ∧ dateLtN S (addDays S off) = true)
    ∧ (∀ text s E, pyStrip text = s → shortcutOffset s = none → ¬(s = "Never") →
        ¬(s = "Custom Date") → parseDate s = some E → dateLtN S E = true →
        get_end_date uid text d store =
          ⟨none, emptySession, storeAppend uid (Reminder.recurring tk f tm sds (some s)) store,
            true, some (Reminder.recurring tk f tm sds (some s))⟩)
    ∧ (∀ text s, pyStrip text = s → shortcutOffset s = none → ¬(s = "Never") →
        ¬(s = "Custom Date") →
        (parseDate s = none ∨ (∃ E, parseDate s = some E ∧ dateLtN S E = false)) →
        get_end_date uid text d store = ⟨some ConvState.END_DATE, d, store, false, none⟩)
    ∧ (∀ text r, (get_end_date uid text d store).committed = some r →
        endOf r = none ∨ ∃ es E2, endOf r = some es ∧ parseDate es = some E2 ∧
          dateLtN S E2 = true) := by
  have hgd : d.start_date.getD "" = sds := by rw [hsd]; rfl
  have hSv : S.valid = true := parseDate_some_valid _ _ hS
  have hcommit : ∀ ed, commitRecurring uid d ed store =
      ⟨none, emptySession, storeAppend uid (Reminder.recurring tk f tm sds ed) store, true,
        some (Reminder.recurring tk f tm sds ed)⟩ := by
    intro ed
    simp [commitRecurring, htk, hf, htm, hsd]
  have hshort : ∀ name off, pyStrip name = name → shortcutOffset name = some off →
      (addDays S off).year ≤ 9999 →
      get_end_date uid name d store =
        ⟨none, emptySession,
          storeAppend uid (Reminder.recurring tk f tm sds (some (toIso (addDays S off)))) store,
          true, some (Reminder.recurring tk f tm sds (some (toIso (addDays S off))))⟩ := by
    intro name off hps hso hyear
    have hnev : ¬(name = "Never") := by
      intro h
      rw [h, show shortcutOffset "Never" = none from rfl] at hso
      exact Option.noConfusion hso
    have hcd : ¬(name = "Custom Date") := by
      intro h
      rw [h, show shortcutOffset "Custom Date" = none from rfl] at hso
      exact Option.noConfusion hso
    simp only [get_end_date, hps, hnev, hcd, if_neg, hso, hgd, hS, hyear, if_true,
      not_false_eq_true, if_false]
    rw [hcommit]
  have hstay : ∀ text, get_end_date uid text d store =
      ⟨some ConvState.END_DATE, d, store, false, none⟩ ↔
      get_end_date uid text d store = stay ConvState.END_DATE d store := by
    intro text
    rfl
  refine ⟨?_, ?_, ?_, ?_, ?_⟩
  · have hps : pyStrip "Never" = "Never" := by decide
    simp only [get_end_date, hps, if_pos, hcommit]
  · intro name off hmem hyear
    have hok : 1 ≤ (7 : Nat) := by omega
    simp only [List.mem_cons, List.mem_singleton, Prod.mk.injEq, List.not_mem_nil,
      or_false] at hmem
    rcases hmem with ⟨h1, h2⟩ | ⟨h1, h2⟩ | ⟨h1, h2⟩ | ⟨h1, h2⟩ | ⟨h1, h2⟩ <;> subst h1 <;> subst h2
    · exact ⟨hshort _ _ (by decide) (by decide) hyear,
        dateLtN_addDays S _ (valid_okb S hSv) (by omega)⟩
    · exact ⟨hshort _ _ (by decide) (by decide) hyear,
        dateLtN_addDays S _ (valid_okb S hSv) (by omega)⟩
    · exact ⟨hshort _ _ (by decide) (by decide) hyear,
        dateLtN_addDays S _ (valid_okb S hSv) (by omega)⟩
    · exact ⟨hshort _ _ (by decide) (by decide) hyear,
        dateLtN_addDays S _ (valid_okb S hSv) (by omega)⟩
    · exact ⟨hshort _ _ (by decide) (by decide) hyear,
        dateLtN_addDays S _ (valid_okb S hSv) (by omega)⟩
  · intro text s E hps hso hnev hcd hparse hlt
    subst hps
    have hle : dateLeN E S = false := by
      rw [dateLeN, hlt]
      rfl
    simp only [get_end_date, hnev, hcd, if_neg, hso, hparse, hgd, hS, hle,
      Bool.false_eq_true, if_false, not_false_eq_true, hcommit]
  · intro text s hps hso hnev hcd hrej
    subst hps
    rcases hrej with hnone | ⟨E, hpE, hfalse⟩
    · simp only [get_end_date, hnev, hcd, if_neg, hso, hnone, not_false_eq_true, stay]
    · have hle : dateLeN E S = true := by
        rw [dateLeN, hfalse]
        rfl
      simp only [get_end_date, hnev, hcd, if_neg, hso, hpE, hgd, hS, hle, if_true,
        not_false_eq_true, stay]
  · intro text r hc
    by_cases h1 : pyStrip text = "Never"
    · rw [show get_end_date uid text d store = commitRecurring uid d none store by
        simp only [get_end_date, h1, if_pos]] at hc
      rw [hcommit] at hc
      simp only [Option.some.injEq] at hc
      subst hc
      exact Or.inl rfl
    · by_cases h2 : pyStrip text = "Custom Date"
      · rw [show get_end_date uid text d store = stay ConvState.END_DATE d store by
          simp only [get_end_date, h1, h2, if_neg, if_pos, not_false_eq_true]
          rw [if_neg (by decide)]] at hc
        exact Option.noConfusion hc
      · cases h3 : shortcutOffset (pyStrip text) with
        | some off =>
          by_cases h4 : (addDays S off).year ≤ 9999
          · rw [show get_end_date uid text d store =
                commitRecurring uid d (some (toIso (addDays S off))) store by
              simp only [get_end_date, h1, h2, if_neg, h3, hgd, hS, not_false_eq_true]
              rw [if_pos h4]] at hc
            rw [hcommit] at hc
            simp only [Option.some.injEq] at hc
            subst hc
            refine Or.inr ⟨toIso (addDays S off), addDays S off, rfl, ?_, ?_⟩
            · exact parse_toIso _ (addDays_valid S off hSv h4)
            · exact dateLtN_addDays S off (valid_okb S hSv) (shortcutOffset_pos _ _ h3)
          · rw [show get_end_date uid text d store = stay ConvState.END_DATE d store by
              simp only [get_end_date, h1, h2, if_neg, h3, hgd, hS, not_false_eq_true]
              rw [if_neg h4]] at hc
            exact Option.noConfusion hc
        | none =>
          cases h5 : parseDate (pyStrip text) with
          | none =>
            rw [show get_end_date uid text d store = stay ConvState.END_DATE d store by
              simp only [get_end_date, h1, h2, if_neg, h3, h5, not_false_eq_true]] at hc
            exact Option.noConfusion hc
          | some E =>
            by_cases h6 : dateLeN E S = true
            · rw [show get_end_date uid text d store = stay ConvState.END_DATE d store by
                simp only [get_end_date, h1, h2, if_neg, h3, h5, hgd, hS, h6, if_true,
                  not_false_eq_true]] at hc
              exact Option.noConfusion hc
            · rw [Bool.not_eq_true] at h6
              have hlt : dateLtN S E = true := by
                rw [dateLeN] at h6
                cases hq : dateLtN S E with
                | true => rfl
                | false =>
                  rw [hq] at h6
                  exact Bool.noConfusion h6
              rw [show get_end_date uid text d store =
                  commitRecurring uid d (some (pyStrip text)) store by
                simp only [get_end_date, h1, h2, if_neg, h3, h5, hgd, hS, h6,
                  Bool.false_eq_true, if_false, not_false_eq_true]] at hc
              rw [hcommit] at hc
              simp only [Option.some.injEq] at hc
              subst hc
              exact Or.inr ⟨pyStrip text, E, rfl, h5, hlt⟩

/-- The task field, once set by `get_task`, is a nonempty string. -/
def taskSet (d : SessionData) : Prop := ∃ t, d.task = some t ∧ ¬(t = "")

/-- Invariant of the add-reminder conversation. -/
def addInv : ConvState → SessionData → Prop
  | .TASK, _ => True
  | _, d => taskSet d

theorem addStep_inv (uid : String) (now : CivilDT) (c : ConvState) (d : SessionData)
    (text : String) (store : Store) (h : addInv c d) :
    (∀ c2, (addStep uid now (c, d) text store).state = some c2 →
      addInv c2 (addStep uid now (c, d) text store).data)
    ∧ (∀ r, (addStep uid now (c, d) text store).committed = some r → ¬(taskOf r = "")) := by
  by_cases hc1 : text = "/cancel"
  · simp [addStep, hc1, cancel]
  · by_cases hc2 : (text = "" || isCommandText text) = true
    · simp only [addStep, hc1, if_neg, hc2, if_true, not_false_eq_true]
      refine ⟨fun c2 hc => ?_, fun r hr => by first | exact Option.noConfusion hr | exact hr.elim⟩
      simp only [Option.some.injEq] at hc
      rw [← hc]
      exact h
    · rw [Bool.not_eq_true] at hc2
      have htext : ¬(text = "") := by
        intro he
        rw [he] at hc2
        simp at hc2
      simp only [addStep, hc1, if_neg, hc2, Bool.false_eq_true, if_false, not_false_eq_true]
      cases c with
      | TASK =>
        dsimp only
        refine ⟨fun c2 hc => ?_, fun r hr => by first | exact Option.noConfusion hr | exact hr.elim⟩
        simp only [get_task, Option.some.injEq] at hc ⊢
        rw [← hc]
        exact ⟨text, rfl, htext⟩
      | FREQUENCY =>
        obtain ⟨tv, htv, htv2⟩ : taskSet d := h
        dsimp only
        unfold get_frequency
        split_ifs with h1 h2
        · refine ⟨fun c2 hc => ?_, fun r hr => by first | exact Option.noConfusion hr | exact hr.elim⟩
          simp only [Option.some.injEq] at hc
          rw [← hc]
          exact ⟨tv, htv, htv2⟩
        · refine ⟨fun c2 hc => ?_, fun r hr => by first | exact Option.noConfusion hr | exact hr.elim⟩
          simp only [Option.some.injEq] at hc
          rw [← hc]
          exact ⟨tv, htv, htv2⟩
        · refine ⟨fun c2 hc => ?_, fun r hr => by first | exact Option.noConfusion hr | exact hr.elim⟩
          simp only [stay, Option.some.injEq] at hc
          rw [← hc]
          exact ⟨tv, htv, htv2⟩
      | TIME =>
        obtain ⟨tv, htv, htv2⟩ : taskSet d := h
        dsimp only
        unfold get_time
        cases hp : parseHM (pyStrip text) with
        | some v =>
          refine ⟨fun c2 hc => ?_, fun r hr => by first | exact Option.noConfusion hr | exact hr.elim⟩
          simp only [Option.some.injEq] at hc
          rw [← hc]
          exact ⟨tv, htv, htv2⟩
        | none =>
          refine ⟨fun c2 hc => ?_, fun r hr => by first | exact Option.noConfusion hr | exact hr.elim⟩
          simp only [stay, Option.some.injEq] at hc
          rw [← hc]
          exact ⟨tv, htv, htv2⟩
      | START_DATE =>
        obtain ⟨tv, htv, htv2⟩ : taskSet d := h
        dsimp only
        unfold get_start_date
        split_ifs with h1 h2 h3
        · refine ⟨fun c2 hc => ?_, fun r hr => by first | exact Option.noConfusion hr | exact hr.elim⟩
          simp only [Option.some.injEq] at hc
          rw [← hc]
          exact ⟨tv, htv, htv2⟩
        · refine ⟨fun c2 hc => ?_, fun r hr => by first | exact Option.noConfusion hr | exact hr.elim⟩
          simp only [Option.some.injEq] at hc
          rw [← hc]
          exact ⟨tv, htv, htv2⟩
        · refine ⟨fun c2 hc => ?_, fun r hr => by first | exact Option.noConfusion hr | exact hr.elim⟩
          simp only [stay, Option.some.injEq] at hc
          rw [← hc]
          exact ⟨tv, htv, htv2⟩
        · cases hp : parseDate (pyStrip text) with
          | some v =>
            refine ⟨fun c2 hc => ?_, fun r hr => by first | exact Option.noConfusion hr | exact hr.elim⟩
            simp only [Option.some.injEq] at hc
            rw [← hc]
            exact ⟨tv, htv, htv2⟩
          | none =>
            refine ⟨fun c2 hc => ?_, fun r hr => by first | exact Option.noConfusion hr | exact hr.elim⟩
            simp only [stay, Option.some.injEq] at hc
            rw [← hc]
            exact ⟨tv, htv, htv2⟩
      | END_DATE =>
        obtain ⟨tv, htv, htv2⟩ : taskSet d := h
        have hcommitted : ∀ ed r,
            (commitRecurring uid d ed store).committed = some r → ¬(taskOf r = "") := by
          intro ed r hr
          rcases hf2 : d.frequency with _ | fv <;> rcases ht3 : d.time with _ | tmv <;>
            rcases hs3 : d.start_date with _ | sdv <;>
            simp only [commitRecurring, htv, hf2, ht3, hs3, stay, Option.some.injEq,
              reduceCtorEq] at hr
          rw [← hr]
          simp only [taskOf]
          exact htv2
        have hcstate : ∀ ed c2,
            (commitRecurring uid d ed store).state = some c2 →
            addInv c2 (commitRecurring uid d ed store).data := by
          intro ed c2 hc
          rcases hf2 : d.frequency with _ | fv <;> rcases ht3 : d.time with _ | tmv <;>
            rcases hs3 : d.start_date with _ | sdv <;>
            simp only [commitRecurring, htv, hf2, ht3, hs3, stay, Option.some.injEq,
              reduceCtorEq] at hc ⊢ <;>
            rw [← hc] <;> exact ⟨tv, htv, htv2⟩
        dsimp only
        unfold get_end_date
        split_ifs with h1 h2
        · exact ⟨hcstate none, hcommitted none⟩
        · refine ⟨fun c2 hc => ?_, fun r hr => by first | exact Option.noConfusion hr | exact hr.elim⟩
          simp only [stay, Option.some.injEq] at hc
          rw [← hc]
          exact ⟨tv, htv, htv2⟩
        · cases h3 : shortcutOffset (pyStrip text) with
          | some off =>
            cases h4 : parseDate (d.start_date.getD "") with
            | none =>
              refine ⟨fun c2 hc => ?_, fun r hr => by first | exact Option.noConfusion hr | exact hr.elim⟩
              simp only [stay, Option.some.injEq] at hc
              rw [← hc]
              exact ⟨tv, htv, htv2⟩
            | some S =>
              dsimp only
              by_cases h5 : (addDays S off).year ≤ 9999
              · rw [if_pos h5]
                exact ⟨hcstate _, hcommitted _⟩
              · rw [if_neg h5]
                refine ⟨fun c2 hc => ?_, fun r hr => by first | exact Option.noConfusion hr | exact hr.elim⟩
                simp only [stay, Option.some.injEq] at hc
                rw [← hc]
                exact ⟨tv, htv, htv2⟩
          | none =>
            cases h3b : parseDate (pyStrip text) with
            | none =>
              refine ⟨fun c2 hc => ?_, fun r hr => by first | exact Option.noConfusion hr | exact hr.elim⟩
              simp only [stay, Option.some.injEq] at hc
              rw [← hc]
              exact ⟨tv, htv, htv2⟩
            | some E =>
              cases h4 : parseDate (d.start_date.getD "") with
              | none =>
                refine ⟨fun c2 hc => ?_, fun r hr => by first | exact Option.noConfusion hr | exact hr.elim⟩
                simp only [stay, Option.some.injEq] at hc
                rw [← hc]
                exact ⟨tv, htv, htv2⟩
              | some S =>
                dsimp only
                by_cases h5 : dateLeN E S = true
                · rw [if_pos h5]
                  refine ⟨fun c2 hc => ?_, fun r hr => by first | exact Option.noConfusion hr | exact hr.elim⟩
                  simp only [stay, Option.some.injEq] at hc
                  rw [← hc]
                  exact ⟨tv, htv, htv2⟩
                · rw [if_neg h5]
                  exact ⟨hcstate _, hcommitted _⟩
      | ONE_OFF_DATETIME =>
        obtain ⟨tv, htv, htv2⟩ : taskSet d := h
        dsimp only
        unfold get_one_off_datetime
        cases hp : parseDT (pyStrip text) with
        | none =>
          refine ⟨fun c2 hc => ?_, fun r hr => by first | exact Option.noConfusion hr | exact hr.elim⟩
          simp only [stay, Option.some.injEq] at hc
          rw [← hc]
          exact ⟨tv, htv, htv2⟩
        | some p =>
          obtain ⟨dt, hmv⟩ := p
          dsimp only
          split_ifs with h1
          · refine ⟨fun c2 hc => ?_, fun r hr => by first | exact Option.noConfusion hr | exact hr.elim⟩
            simp only [stay, Option.some.injEq] at hc
            rw [← hc]
            exact ⟨tv, htv, htv2⟩
          · rw [htv]
            refine ⟨fun c2 hc => Option.noConfusion hc, fun r hr => ?_⟩
            simp only [Option.some.injEq] at hr
            rw [← hr]
            exact htv2

theorem runAdd_task (uid : String) (inputs : List (String × CivilDT)) :
    ∀ st : ConvState × SessionData, ∀ store : Store, ∀ r : Reminder, addInv st.1 st.2 →
      r ∈ (runAdd uid (some st) inputs store).2 → ¬(taskOf r = "") := by
  induction inputs with
  | nil =>
    intro st store r _ hr
    simp [runAdd] at hr
  | cons p rest ih =>
    intro st store r hinv hr
    obtain ⟨text, tnow⟩ := p
    obtain ⟨c, d⟩ := st
    have hstep := addStep_inv uid tnow c d text store hinv
    cases hso : (addStep uid tnow (c, d) text store).state with
    | some s2 =>
      simp only [runAdd, hso] at hr
      rw [List.mem_append] at hr
      rcases hr with hr | hr
      · rcases hco : (addStep uid tnow (c, d) text store).committed with _ | rc
        · rw [hco] at hr
          simp at hr
        · rw [hco] at hr
          simp only [Option.toList_some, List.mem_singleton] at hr
          subst hr
          exact hstep.2 _ hco
      · exact ih (s2, (addStep uid tnow (c, d) text store).data) _ r (hstep.1 s2 hso) hr
    | none =>
      simp only [runAdd, hso] at hr
      rcases hco : (addStep uid tnow (c, d) text store).committed with _ | rc
      · rw [hco] at hr
        simp at hr
      · rw [hco] at hr
        simp only [Option.toList_some, List.mem_singleton] at hr
        subst hr
        exact hstep.2 _ hco

/-- C8: the task state does not advance on empty input (rejected by the text
filter), and every reminder committed by a full wizard run started from the
task state has a non-empty task string. -/
theorem c8_committed_task_nonempty (uid : String) (now : CivilDT) (d : SessionData) (store : Store)
    (inputs : List (String × CivilDT)) (r : Reminder) :
    (addStep uid now (ConvState.TASK, d) "" store =
      ⟨some ConvState.TASK, d, store, false, none⟩)
    ∧ (r ∈ (runAdd uid (some (ConvState.TASK, emptySession)) inputs store).2 →
        ¬(taskOf r = "")) := by
  constructor
  · have h1 : ¬(("" : String) = "/cancel") := by decide
    have h2 : (("" : String) = "" || isCommandText "") = true := by decide
    simp [addStep, h1, h2]
  · intro hmem
    exact runAdd_task uid inputs (ConvState.TASK, emptySession) store r trivial hmem

set_option maxRecDepth 4000 in
/-- C3 counterexample: from a start date of 9999-12-31 the shortcut
`1 Week` does not commit — the 7-day addition overflows `datetime`'s range,
the exception propagates, and the conversation stays in the end-date state
with nothing stored — contradicting the claim that every shortcut commits. -/
theorem c3_end_date_cex :
    (get_end_date "1" "1 Week"
        ⟨some "t", some "Daily", some "09:00", some "9999-12-31"⟩ []).committed = none
    ∧ (get_end_date "1" "1 Week"
        ⟨some "t", some "Daily", some "09:00", some "9999-12-31"⟩ []).state =
      some ConvState.END_DATE := by
  exact ⟨by decide, by decide⟩

/-- C1 witness: the specification's own example, a one-off at
`2026-02-15 14:30`, is due exactly at that civil minute and fires at most
once over repeated evaluations. -/
theorem c1_oneoff_witness :
    evalDue ⟨⟨2026, 2, 15⟩, 870⟩ (Reminder.oneOff "pay" "2026-02-15 14:30" false) = true
    ∧ countFires (Reminder.oneOff "pay" "2026-02-15 14:30" false)
        [⟨⟨2026, 2, 15⟩, 870⟩, ⟨⟨2026, 2, 15⟩, 870⟩] ≤ 1 := by
  have h := c1_oneoff_due_exact_and_at_most_once "pay" "2026-02-15 14:30" false
    ⟨⟨2026, 2, 15⟩, 870⟩ ⟨2026, 2, 15⟩ 870 (by decide) (by decide) (by decide)
  exact ⟨h.1.mpr ⟨rfl, rfl, rfl⟩, h.2 _⟩

/-- C2 witness: a Daily reminder stored zero-padded fires the day after its
start date at its stored time. -/
theorem c2_recurring_witness :
    evalDue ⟨⟨2026, 1, 2⟩, 540⟩
      (Reminder.recurring "t" "Daily" (fmtHM 540) (toIso ⟨2026, 1, 1⟩)
        ((none : Option Date).map toIso)) = true := by
  have h := c2_recurring_due_amended "t" "Daily" 540 ⟨2026, 1, 1⟩ none ⟨⟨2026, 1, 2⟩, 540⟩
    (by decide) (by decide) (by decide) (by decide) (fun E hE => Option.noConfusion hE)
  exact h.mpr ⟨by decide, fun E hE => Option.noConfusion hE, rfl, Or.inl rfl⟩

set_option maxRecDepth 8000 in
/-- C3 witness: the specification's example — the `1 Month` shortcut from
start date 2026-01-01 commits end date 2026-01-31 (a 30-day offset). -/
theorem c3_end_date_witness :
    get_end_date "1" "1 Month"
        ⟨some "water plants", some "Daily", some "09:00", some "2026-01-01"⟩ [] =
      ⟨none, emptySession,
        storeAppend "1"
          (Reminder.recurring "water plants" "Daily" "09:00" "2026-01-01"
            (some "2026-01-31")) [],
        true,
        some (Reminder.recurring "water plants" "Daily" "09:00" "2026-01-01"
          (some "2026-01-31"))⟩ := by
  have h := (c3_end_date_amended "1"
    ⟨some "water plants", some "Daily", some "09:00", some "2026-01-01"⟩ []
    "water plants" "Daily" "09:00" "2026-01-01" ⟨2026, 1, 1⟩
    rfl rfl rfl rfl (by decide)).2.1 "1 Month" 30 (by decide) (by decide)
  rw [show toIso (addDays (⟨2026, 1, 1⟩ : Date) 30) = "2026-01-31" from by decide] at h
  exact h.1

/-- C4 witness: the zero-padded time `09:30` is accepted and stored, and the
wizard advances to the start-date state. -/
theorem c4_time_witness :
    get_time "09:30" emptySession [] =
      ⟨some ConvState.START_DATE, { emptySession with time := some "09:30" }, [],
        false, none⟩ := by
  have h := (c4_time_validation_amended "09:30" emptySession []).1 (by decide)
  rw [show pyStrip "09:30" = "09:30" from by decide] at h
  exact h

/-- C5 witness: the specification's example — removing index 2 from a 3-item
list leaves the former items 1 and 3 in order and persists. -/
theorem c5_removal_witness :
    remove_reminder_confirm
      [Reminder.oneOff "a" "2026-02-15 14:30" false,
        Reminder.oneOff "b" "2026-03-01 10:00" false,
        Reminder.oneOff "c" "2026-04-01 10:00" false] "2" =
      ⟨true,
        [Reminder.oneOff "a" "2026-02-15 14:30" false,
          Reminder.oneOff "c" "2026-04-01 10:00" false], true⟩ := by
  have h := (c5_removal_index
    [Reminder.oneOff "a" "2026-02-15 14:30" false,
      Reminder.oneOff "b" "2026-03-01 10:00" false,
      Reminder.oneOff "c" "2026-04-01 10:00" false] "2").1 2 (by decide) (by decide) (by decide)
  exact h.trans (by decide)

/-- An oracle under which every send succeeds. -/
def okAllSends : String → Nat → Bool := fun _ _ => true

/-- An oracle under which every send raises (and is caught). -/
def okNoSends : String → Nat → Bool := fun _ _ => false

/-- A two-reminder store used to witness the scan properties. -/
def storeEx : Store :=
  [("7", [Reminder.oneOff "pay" "2026-02-15 14:30" false,
    Reminder.recurring "gym" "Daily" "09:00" "2026-01-01" none])]

/-- A save oracle under which every `save_reminders` call succeeds. -/
def svAllOk : String → Nat → Bool := fun _ _ => true

/-- A save oracle under which every `save_reminders` call raises. -/
def svAllFail : String → Nat → Bool := fun _ _ => false

/-- Two users, each with a one-off due at 2026-02-15 14:30. -/
def storeC7 : Store :=
  [("1", [Reminder.oneOff "pay" "2026-02-15 14:30" false]),
   ("2", [Reminder.oneOff "call" "2026-02-15 14:30" false])]

/-- User 1's stored datetime does not parse; user 2 has a due one-off. -/
def storeC7bad : Store :=
  [("1", [Reminder.oneOff "pay" "soon" false]),
   ("2", [Reminder.oneOff "call" "2026-02-15 14:30" false])]

/-- C7 counterexample: a failure other than the send is not isolated.  When
the `save_reminders` call for user 1's due one-off raises, the scan aborts
with no send attempted at all - user 2's due reminder is skipped - although
with succeeding saves both users' reminders are attempted; likewise an
unparseable stored datetime aborts the scan before user 2 is reached. -/
theorem c7_scan_cex :
    send_remindersE ⟨⟨2026, 2, 15⟩, 870⟩ svAllFail okAllSends storeC7
      = Except.error (ScanExc.saveErr, [])
    ∧ attempts (send_reminders ⟨⟨2026, 2, 15⟩, 870⟩ okAllSends storeC7).2
      = [("1", "pay"), ("2", "call")]
    ∧ send_remindersE ⟨⟨2026, 2, 15⟩, 870⟩ svAllOk okAllSends storeC7bad
      = Except.error (ScanExc.parseErr, []) :=
  ⟨rfl, rfl, rfl⟩

/-- C7 witness: on a concrete well-formed store with every save succeeding,
the exception-aware scan completes with the total model's result, that
result is identical whether all sends succeed or all fail, and the failed
due one-off is not due again. -/
theorem c7_scan_amended_witness :
    send_remindersE ⟨⟨2026, 2, 15⟩, 870⟩ svAllOk okNoSends storeEx
      = Except.ok (send_reminders ⟨⟨2026, 2, 15⟩, 870⟩ okNoSends storeEx)
    ∧ ((send_reminders ⟨⟨2026, 2, 15⟩, 870⟩ okNoSends storeEx).1 =
        (send_reminders ⟨⟨2026, 2, 15⟩, 870⟩ okAllSends storeEx).1)
    ∧ evalDue ⟨⟨2026, 3, 1⟩, 870⟩
        (stepReminder ⟨⟨2026, 2, 15⟩, 870⟩
          (Reminder.oneOff "pay" "2026-02-15 14:30" false)) = false := by
  have h := c7_scan_failure_amended ⟨⟨2026, 2, 15⟩, 870⟩ storeEx svAllOk okNoSends okAllSends
    (by decide) (fun _ _ => rfl)
  exact ⟨h.1, h.2.1, h.2.2.2.2 "pay" "2026-02-15 14:30" ⟨⟨2026, 3, 1⟩, 870⟩ (by decide)⟩

/-- C8 witness: a full wizard run committing a Daily reminder yields a
non-empty task. -/
theorem c8_task_witness :
    ¬(taskOf (Reminder.recurring "buy milk" "Daily" "09:00" "2026-01-02" none) = "") := by
  have h := (c8_committed_task_nonempty "1" ⟨⟨2026, 1, 2⟩, 540⟩ emptySession []
    [("buy milk", ⟨⟨2026, 1, 2⟩, 540⟩), ("Daily", ⟨⟨2026, 1, 2⟩, 540⟩),
      ("09:00", ⟨⟨2026, 1, 2⟩, 540⟩), ("Today", ⟨⟨2026, 1, 2⟩, 540⟩),
      ("Never", ⟨⟨2026, 1, 2⟩, 540⟩)]
    (Reminder.recurring "buy milk" "Daily" "09:00" "2026-01-02" none)).2
  exact h (by decide)

/-- C9 witness: a due one-off whose send fails is still marked sent, with the
persist event strictly before the failed send, and is not due later. -/
theorem c9_sent_witness :
    processReminder ⟨⟨2026, 2, 15⟩, 870⟩ "7" false
        (Reminder.oneOff "pay" "2026-02-15 14:30" false) =
      (Reminder.oneOff "pay" "2026-02-15 14:30" true,
        [ScanEvent.saved, ScanEvent.send "7" "pay" false])
    ∧ evalDue ⟨⟨2026, 2, 16⟩, 870⟩ (Reminder.oneOff "pay" "2026-02-15 14:30" true) = false := by
  have h := c9_sent_persisted_before_send "pay" "2026-02-15 14:30" false "7" false
    ⟨⟨2026, 2, 15⟩, 870⟩ (by decide)
  exact ⟨h.1, h.2 _⟩

/-- C10 witness: the general padded-agreement clause at concrete dates. -/
theorem c10_date_witness :
    pyStrLt (toIso ⟨2026, 1, 5⟩) (toIso ⟨2026, 9, 30⟩) = true := by
  have h := c10_lenient_date_lexicographic.2.1 ⟨2026, 1, 5⟩ ⟨2026, 9, 30⟩ (by decide) (by decide)
  exact h.mpr (by decide)
